import Mathlib

/-!
Verification development for the MobileAppMail backend (src/backend/server.py).

The Python backend is shallowly embedded: every helper and endpoint that the
properties below speak about is translated into an executable Lean definition.
Python strings are Lean `String`s, and the handful of Python string
operations used by the source (`split`, `strip`, `in`, `lower`, slicing,
comparison) are reimplemented over `List Char` so that the kernel can
evaluate them.  External collaborators that live outside the repository
(the Python codec machinery, `email.header.decode_header`,
`email.utils.parsedate_to_datetime`, base64) are supplied as an explicit
`Codec` record of oracle functions, and the IMAP server is a `Mailbox`
record of response functions; the control flow around them is translated
line by line from the source.  Exceptions are modelled with `Except`;
the MongoDB email collection is a `List EmailMessage` in insertion order.
-/

/-! ## Python string primitives, over `List Char` -/

/-- The double-quote character, written via its code point. -/
def quoteChar : Char := Char.ofNat 34

/-- The comma character. -/
def commaChar : Char := Char.ofNat 44

/-- The character `<`. -/
def ltChar : Char := Char.ofNat 60

/-- The character `>`. -/
def gtChar : Char := Char.ofNat 62

/-- The newline character. -/
def nlChar : Char := Char.ofNat 10

/-- Python `str.isspace` for the ASCII whitespace characters recognised by
`str.split()` / `str.strip()`. -/
def isPySpace (c : Char) : Bool :=
  c = Char.ofNat 32 || c = Char.ofNat 9 || c = nlChar || c = Char.ofNat 13 ||
  c = Char.ofNat 11 || c = Char.ofNat 12

/-- Python `s.split(sep)` for a one-character separator, keeping empty
fields (so `"".split(",") == [""]`). -/
def pySplitCharList (sep : Char) : List Char → List (List Char)
  | [] => [[]]
  | c :: rest =>
    if c = sep then [] :: pySplitCharList sep rest
    else
      match pySplitCharList sep rest with
      | [] => [[c]]
      | h :: t => (c :: h) :: t

/-- `pySplitCharList` wrapped for `String`. -/
def pySplitChar (sep : Char) (s : String) : List String :=
  (pySplitCharList sep s.data).map String.mk

/-- Python `s.split()` (split on whitespace runs, dropping empty fields). -/
def pySplitWsList (l : List Char) : List (List Char) :=
  (l.splitOnP isPySpace).filter (fun w => w ≠ [])

/-- `pySplitWsList` wrapped for `String`. -/
def pySplitWs (s : String) : List String :=
  (pySplitWsList s.data).map String.mk

/-- Python `s.strip()`: drop leading and trailing whitespace. -/
def pyStrip (s : String) : String :=
  String.mk (((s.data.dropWhile isPySpace).reverse.dropWhile isPySpace).reverse)

/-- Python `s.strip(c)` for a one-character argument. -/
def pyStripChar (c : Char) (s : String) : String :=
  String.mk (((s.data.dropWhile (· = c)).reverse.dropWhile (· = c)).reverse)

/-- Whether `pre` is an initial segment of the second list. -/
def listHasPre : List Char → List Char → Bool
  | [], _ => true
  | _ :: _, [] => false
  | a :: as, b :: bs => a = b && listHasPre as bs

/-- Python `needle in hay` for strings: contiguous substring test. -/
def listHasSub (needle : List Char) : List Char → Bool
  | [] => listHasPre needle []
  | c :: rest => listHasPre needle (c :: rest) || listHasSub needle rest

/-- Python `needle in hay` wrapped for `String`. -/
def strContains (hay needle : String) : Bool :=
  listHasSub needle.data hay.data

/-- Python `s.lower()` (ASCII case folding, which is all the source needs). -/
def strLower (s : String) : String :=
  String.mk (s.data.map Char.toLower)

/-- Python string `<=` : lexicographic comparison by code point. -/
def listLe : List Char → List Char → Bool
  | [], _ => true
  | _ :: _, [] => false
  | a :: as, b :: bs =>
    if a.toNat < b.toNat then true
    else if b.toNat < a.toNat then false
    else listLe as bs

/-- Python slicing `xs[start:]` with a possibly negative start index: a
negative index counts from the end and is clamped to the list. -/
def pySliceFrom (start : Int) (xs : List Nat) : List Nat :=
  xs.drop (if start < 0 then max 0 (start + (xs.length : Int))
    else min start (xs.length : Int)).toNat

/-! ## External codec oracles

The Python standard library pieces the backend calls into
(`email.header.decode_header`, `bytes.decode`, base64,
`email.utils.parsedate_to_datetime`) are not part of this repository; they
are supplied as an explicit record of total/partial oracle functions.
Returning `none` models the call raising. -/

/-- One fragment returned by `email.header.decode_header`: either an
already-decoded `str` part or raw bytes with an optional declared charset. -/
inductive HeaderSeg where
  | txt (s : String)
  | raw (b : List Nat) (enc : Option String)

/-- Oracles for the Python standard-library collaborators. -/
structure Codec where
  /-- `email.header.decode_header`; `.error` models the call raising
  (`decode_header` raises `HeaderParseError` on malformed base64
  encoded-words such as `=?utf-8?B?a?=`). -/
  decodeHeader : String → Except String (List HeaderSeg)
  /-- `bytes.decode(charset, errors="ignore")`; `none` models `LookupError`
  for an unknown charset. -/
  charsetDecode : String → List Nat → Option String
  /-- `bytes.decode("utf-8", errors="ignore")`, which never raises. -/
  utf8Ignore : List Nat → String
  /-- `base64.b64encode(..).decode()`. -/
  b64 : List Nat → String
  /-- `email.utils.parsedate_to_datetime`; `none` models a raise. -/
  parsedate : String → Option Nat

/-! ## `decode_mime_words` (server.py lines 130-144) -/

/-- The charset actually tried, `encoding or 'utf-8'`: a `None` or empty
declared charset falls through to UTF-8. -/
def normEnc : Option String → String
  | none => "utf-8"
  | some s => if s = "" then "utf-8" else s

/-- One iteration of the `for part, encoding in decoded_parts` loop of
`decode_mime_words`: a `str` part is appended as is; a `bytes` part is
decoded with the declared charset (`encoding or 'utf-8'`), falling back to
UTF-8 with errors ignored when that raises. -/
def decodeSeg (c : Codec) : HeaderSeg → String
  | HeaderSeg.txt t => t
  | HeaderSeg.raw b enc =>
    match c.charsetDecode (normEnc enc) b with
    | some r => r
    | none => c.utf8Ignore b

/-- `decode_mime_words(s)`: `None` or empty input yields `""`; otherwise
every fragment of `decode_header(s)` is decoded and concatenated.  The
`decode_header(s)` call itself (line 134) sits OUTSIDE the per-fragment
`try`/`except` (which guards only `part.decode`), so an exception it
raises propagates to the caller — the `.error` case here. -/
def decode_mime_words (c : Codec) (s : Option String) :
    Except String String :=
  match s with
  | none => Except.ok ""
  | some str =>
    if str = "" then Except.ok ""
    else
      match c.decodeHeader str with
      | Except.error e => Except.error e
      | Except.ok parts => Except.ok (String.join (parts.map (decodeSeg c)))

/-! ## `clean_email_address` (server.py lines 123-128) -/

/-- Searches for the first `>` terminating a nonempty run of
non-newline characters; `acc` holds the (reversed) content read so far.
Models the non-greedy group of `re.search(r'<(.+?)>', addr)` at a fixed
starting `<`. -/
def scanClose (acc : List Char) : List Char → Option (List Char)
  | [] => none
  | d :: ds =>
    if d = gtChar then some acc.reverse
    else if d = nlChar then none
    else scanClose (d :: acc) ds

/-- Walks the address looking for the leftmost `<` from which the pattern
`<(.+?)>` matches, returning the enclosed group. -/
def cleanScan : List Char → Option (List Char)
  | [] => none
  | c :: rest =>
    if c = ltChar then
      match rest with
      | [] => none
      | d :: ds =>
        if d = nlChar then cleanScan rest
        else
          match scanClose [d] ds with
          | some content => some content
          | none => cleanScan rest
    else cleanScan rest

/-- `clean_email_address(addr)`: the group of the first `<...>` match if
any, otherwise `addr.strip()`. -/
def clean_email_address (addr : String) : String :=
  match cleanScan addr.data with
  | some content => String.mk content
  | none => pyStrip addr

/-! ## Data model (server.py lines 73-113) -/

/-- `EmailAttachment` (server.py lines 73-77). -/
structure EmailAttachment where
  filename : String
  content : String
  content_type : String
  size : Nat
deriving DecidableEq

/-- `EmailMessage` (server.py lines 79-93).  Timestamps are `Nat`. -/
structure EmailMessage where
  id : String
  message_id : String
  subject : String
  from_address : String
  to_address : List String
  cc_address : List String
  body_text : String
  body_html : String
  attachments : List EmailAttachment
  folder : String
  is_read : Bool
  date : Nat
  cached_at : Nat
  user_id : String
deriving DecidableEq

/-- `FolderInfo` (server.py lines 108-110). -/
structure FolderInfo where
  name : String
  message_count : Nat
deriving DecidableEq

/-- `SyncRequest` (server.py lines 103-106); `limit` is a Python `int`
with no positivity constraint, hence `Int`. -/
structure SyncRequest where
  user_id : String
  folder : String
  limit : Int

/-! ## Parsed MIME input

`email.message_from_bytes` is standard-library code outside this
repository; the raw payload handed to `parse_email_message` is therefore
modelled directly as the MIME structure that call produces.  Optional
fields model absent headers / `None` returns. -/

/-- One part yielded by `msg.walk()`. -/
structure MimePart where
  content_type : String
  content_disposition : String
  filename : Option String
  /-- `part.get_payload(decode=True)`: raw bytes, or `none` for a `None`
  return (on which a subsequent `.decode` raises). -/
  payload : Option (List Nat)

/-- The parsed message object produced by `email.message_from_bytes`. -/
structure MimeMsg where
  subject_h : Option String
  from_h : Option String
  to_h : Option String
  cc_h : Option String
  date_h : Option String
  message_id_h : Option String
  multipart : Bool
  parts : List MimePart
  content_type : String
  payload : Option (List Nat)

/-! ## `parse_email_message` (server.py lines 175-252) -/

/-- Body-extraction state: `(body_text, body_html, attachments)`. -/
abbrev BodyState := String × String × List EmailAttachment

/-- One iteration of the `for part in msg.walk()` loop (lines 202-225).
A disposition containing `"attachment"` with a truthy filename and truthy
payload appends an attachment; otherwise the first `text/plain`
(respectively `text/html`) part while `body_text` (resp. `body_html`) is
still empty sets that body; a `None` payload in the body branches raises
`AttributeError`, and a raising `decode_mime_words` on the filename
raises too — either way the per-part `except` turns it into a skip. -/
def processPart (c : Codec) (st : BodyState) (p : MimePart) : BodyState :=
  let bt := st.1
  let bh := st.2.1
  let atts := st.2.2
  if strContains p.content_disposition "attachment" then
    match p.filename with
    | some fn =>
      if fn ≠ "" then
        match decode_mime_words c (some fn) with
        | Except.error _ => (bt, bh, atts)
        | Except.ok fname =>
          match p.payload with
          | some d =>
            if d ≠ [] then
              (bt, bh, atts ++ [⟨fname, c.b64 d, p.content_type,
                d.length⟩])
            else (bt, bh, atts)
          | none => (bt, bh, atts)
      else (bt, bh, atts)
    | none => (bt, bh, atts)
  else if p.content_type = "text/plain" ∧ bt = "" then
    match p.payload with
    | some d => (c.utf8Ignore d, bh, atts)
    | none => (bt, bh, atts)
  else if p.content_type = "text/html" ∧ bh = "" then
    match p.payload with
    | some d => (bt, c.utf8Ignore d, atts)
    | none => (bt, bh, atts)
  else (bt, bh, atts)

/-- Body extraction for a multipart message: fold of `processPart` over the
walked parts starting from empty bodies (lines 197-225). -/
def extractBodies (c : Codec) (parts : List MimePart) : BodyState :=
  parts.foldl (processPart c) ("", "", [])

/-- Body extraction for a non-multipart message (lines 226-233): a truthy
single payload becomes the HTML body iff the content type is
`text/html`, otherwise the plain body. -/
def extractSingleBody (c : Codec) (m : MimeMsg) : BodyState :=
  match m.payload with
  | some d =>
    if d ≠ [] then
      if m.content_type = "text/html" then ("", c.utf8Ignore d, [])
      else (c.utf8Ignore d, "", [])
    else ("", "", [])
  | none => ("", "", [])

/-- `parse_email_message(msg_data, user_id, folder)` (lines 175-252).
`uuid1` models `str(uuid.uuid4())` for the record id and `uuid2` the
fallback `Message-ID`; `now` models `datetime.utcnow()`.  A `none`
`msg_data` models `email.message_from_bytes` raising, which the outer
`except` turns into a `None` return; the Subject decode at line 181 runs
inside that same outer `try`, so a raising `decode_header` on the
Subject header likewise yields a `None` return. -/
def parse_email_message (c : Codec) (uuid1 uuid2 : String) (now : Nat)
    (msg_data : Option MimeMsg) (user_id folder : String) :
    Option EmailMessage :=
  match msg_data with
  | none => none
  | some m =>
    match decode_mime_words c (some (m.subject_h.getD "No Subject")) with
    | Except.error _ => none
    | Except.ok subject =>
    let from_addr := clean_email_address (m.from_h.getD "")
    let to_addr := m.to_h.getD ""
    let to_list := if to_addr = "" then []
      else (pySplitChar commaChar to_addr).map
        (fun a => clean_email_address (pyStrip a))
    let cc_addr := m.cc_h.getD ""
    let cc_list := if cc_addr = "" then []
      else (pySplitChar commaChar cc_addr).map
        (fun a => clean_email_address (pyStrip a))
    let date := match m.date_h with
      | none => now
      | some d =>
        if d = "" then now
        else match c.parsedate d with
          | some t => t
          | none => now
    let message_id := m.message_id_h.getD uuid2
    let bodies := if m.multipart then extractBodies c m.parts
      else extractSingleBody c m
    some
      { id := uuid1
        message_id := message_id
        subject := subject
        from_address := from_addr
        to_address := to_list
        cc_address := cc_list
        body_text := bodies.1
        body_html := bodies.2.1
        attachments := bodies.2.2
        folder := folder
        is_read := false
        date := date
        cached_at := now
        user_id := user_id }

/-- Whether decoding a message's Subject header returns (rather than
raises); this is the sole failure mode of `parse_email_message` on an
intact MIME structure, and it depends only on the codec and the
message. -/
def subjectOk (c : Codec) (m : MimeMsg) : Bool :=
  match decode_mime_words c (some (m.subject_h.getD "No Subject")) with
  | Except.ok _ => true
  | Except.error _ => false

/-! ## Mailbox session and environment -/

/-- Observable behaviour of the authenticated `imaplib` connection for one
request: the responses the server gives to each call the backend makes.
An `Except.error` models the call raising, with the exception text. -/
structure Mailbox where
  /-- `mail.select(folder)` in `sync_emails`. -/
  select : String → Except String Unit
  /-- `mail.search(None, "ALL")` followed by `message_numbers[0].split()`. -/
  search : Except String (List Nat)
  /-- `mail.fetch(num, "(RFC822)")` plus indexing `msg_data[0][1]` and
  `email.message_from_bytes`: `.error` models the fetch or the indexing
  raising (which aborts the request), `.ok none` raw bytes on which
  `parse_email_message` fails (returning `None`), `.ok (some m)` a
  successfully parsed MIME structure. -/
  fetch : Nat → Except String (Option MimeMsg)
  /-- `mail.list()` in `get_folders`, each entry already decoded with
  `decode('utf-8', errors='ignore')`. -/
  listFolders : Except String (List String)
  /-- `mail.select(folder_name, readonly=True)` plus
  `mail.search(None, "ALL")` inside the `get_folders` loop: `none` models
  either call raising (the folder is skipped), `some n` the message count. -/
  selectCount : String → Option Nat

/-- The outcome of the connect+login phase inside `connect_imap`. -/
inductive ConnectOutcome where
  | ok (mb : Mailbox)
  | timeout
  | failure (msg : String)

/-- Stored user credential record (the fields the modelled endpoints
read). -/
structure UserRec where
  email : String
  imap_port : Int

/-- The per-request external world: the user collection (never written by
the modelled endpoints) and the behaviour of the IMAP server for this
user's credentials. -/
structure Env where
  users : List (String × UserRec)
  connect : ConnectOutcome

/-- `db.users.find_one({"_id": ObjectId(uid)})`. -/
def findUser (env : Env) (uid : String) : Option UserRec :=
  (env.users.find? (fun p => p.1 == uid)).map (·.2)

/-- An HTTP error response (`HTTPException`). -/
structure HErr where
  status_code : Nat
  detail : String
deriving DecidableEq

/-- An exception in flight inside a handler body: either an
`HTTPException` or a generic exception carrying its message. -/
inductive Exc where
  | http (e : HErr)
  | generic (msg : String)
deriving DecidableEq

/-- Python `str(e)`: Starlette renders an `HTTPException` as
`"{status_code}: {detail}"`; a generic exception renders as its message. -/
def excStr : Exc → String
  | Exc.http e => toString e.status_code ++ ": " ++ e.detail
  | Exc.generic m => m

/-- Session lifecycle events, recorded to reason about open/logout
pairing. -/
inductive Event where
  | connected
  | loggedOut
deriving DecidableEq

/-- `connect_imap` (server.py lines 146-173): success returns the session;
`socket.timeout` raises HTTP 408 with the firewall guidance, any other
exception raises HTTP 401 with the cause attached. -/
def connect_imap (port : Int) : ConnectOutcome → Except HErr Mailbox
  | ConnectOutcome.ok mb => Except.ok mb
  | ConnectOutcome.timeout =>
    Except.error ⟨408, "Connection timeout. Port " ++ toString port ++
      " may be blocked by firewall. Try port 993 (SSL)"⟩
  | ConnectOutcome.failure m =>
    Except.error ⟨401, "IMAP connection failed: " ++ m⟩

/-! ## `sync_emails` (server.py lines 308-364) -/

/-- Line 333: `message_list[-request.limit:] if len(message_list) >
request.limit else message_list`. -/
def takeLast (limit : Int) (xs : List Nat) : List Nat :=
  if (xs.length : Int) > limit then pySliceFrom (-limit) xs else xs

/-- Lines 336-340: the pre-loaded set of `message_id`s already persisted
for this `(user_id, folder)` pair. -/
def existingIds (emails : List EmailMessage) (uid fdr : String) :
    List String :=
  (emails.filter (fun e => e.user_id == uid && e.folder == fdr)).map
    (·.message_id)

/-- Lines 342-351: the fetch/parse/dedup/insert loop over
`reversed(latest_messages)`.  A raising fetch aborts with the exception;
a `None` parse skips the message; a parsed record whose `message_id` is
in the pre-loaded set is skipped; otherwise it is inserted and the
counter incremented.  `uidx` indexes the stream `u` of fresh UUIDs. -/
def fetchLoop (c : Codec) (u : Nat → String) (now : Nat) (mb : Mailbox)
    (uid fdr : String) (ex : List String) :
    List Nat → List EmailMessage → Nat → Nat →
    List EmailMessage × Except String Nat
  | [], emails, cnt, _ => (emails, Except.ok cnt)
  | num :: rest, emails, cnt, uidx =>
    match mb.fetch num with
    | Except.error m => (emails, Except.error m)
    | Except.ok md =>
      match parse_email_message c (u uidx) (u (uidx + 1)) now md uid fdr with
      | none => fetchLoop c u now mb uid fdr ex rest emails cnt (uidx + 2)
      | some em =>
        if em.message_id ∈ ex then
          fetchLoop c u now mb uid fdr ex rest emails cnt (uidx + 2)
        else
          fetchLoop c u now mb uid fdr ex rest (emails ++ [em]) (cnt + 1)
            (uidx + 2)

/-- The body of the `try` block of `sync_emails` (lines 313-358),
returning the updated email collection, the session events, and either
the synced count or the exception in flight. -/
def sync_core (c : Codec) (u : Nat → String) (now : Nat) (env : Env)
    (emails : List EmailMessage) (req : SyncRequest) :
    List EmailMessage × List Event × Except Exc Nat :=
  match findUser env req.user_id with
  | none => (emails, [], Except.error (Exc.http ⟨404, "User not found"⟩))
  | some user =>
    match connect_imap user.imap_port env.connect with
    | Except.error e => (emails, [], Except.error (Exc.http e))
    | Except.ok mb =>
      match mb.select req.folder with
      | Except.error m =>
        (emails, [Event.connected], Except.error (Exc.generic m))
      | Except.ok _ =>
        match mb.search with
        | Except.error m =>
          (emails, [Event.connected], Except.error (Exc.generic m))
        | Except.ok message_list =>
          let latest := takeLast req.limit message_list
          let ex := existingIds emails req.user_id req.folder
          match fetchLoop c u now mb req.user_id req.folder ex
              latest.reverse emails 0 0 with
          | (emails2, Except.error m) =>
            (emails2, [Event.connected], Except.error (Exc.generic m))
          | (emails2, Except.ok cnt) =>
            (emails2, [Event.connected, Event.loggedOut], Except.ok cnt)

/-- `sync_emails` (lines 308-364): the `except Exception` clause catches
every exception raised in the body — `HTTPException`s from the 404 check
and from `connect_imap` included, since the handler has no
`except HTTPException: raise` — and re-raises HTTP 500 with
`"Sync failed: " + str(e)`. -/
def sync_emails (c : Codec) (u : Nat → String) (now : Nat) (env : Env)
    (emails : List EmailMessage) (req : SyncRequest) :
    List EmailMessage × List Event × Except HErr Nat :=
  match sync_core c u now env emails req with
  | (emails2, ev, Except.ok cnt) => (emails2, ev, Except.ok cnt)
  | (emails2, ev, Except.error e) =>
    (emails2, ev, Except.error ⟨500, "Sync failed: " ++ excStr e⟩)

/-! ## `get_folders` (server.py lines 585-668) -/

/-- Lines 624-630: extract the folder name from one listing line — the
second-to-last field of `folder_str.split('"')` when that split has at
least three fields, otherwise the last whitespace token with quotes
stripped; `none` models the `IndexError` of `split()[-1]` on a blank
line, which the per-entry `except` turns into a skip. -/
def parseFolderName (s : String) : Option String :=
  let parts := pySplitChar quoteChar s
  if parts.length ≥ 3 then parts.get? (parts.length - 2)
  else
    match (pySplitWs s).getLast? with
    | none => none
    | some w => some (pyStripChar quoteChar w)

/-- Lines 607-614: the `standard_folders` mapping, in insertion order. -/
def standard_folders : List (String × String) :=
  [("INBOX", "INBOX"), ("Sent", "Sent"), ("Drafts", "Drafts"),
   ("Trash", "Trash"), ("Spam", "Spam"), ("Junk", "Spam")]

/-- Lines 639-643: map a raw folder name to its canonical display name by
case-insensitive substring match against `standard_folders`, first match
winning; an unmapped folder keeps its raw name. -/
def displayNameOf (fname : String) : String :=
  match standard_folders.find?
      (fun p => strContains (strLower fname) (strLower p.1)) with
  | some p => p.2
  | none => fname

/-- Lines 618-655: the folder enumeration loop.  `acc` is `folders`,
`found` is `found_folders`; an unparsable entry or an unselectable folder
is skipped, and a display name already in `found` is skipped
(first occurrence wins). -/
def foldersLoop (selC : String → Option Nat) :
    List String → List FolderInfo → List String → List FolderInfo
  | [], acc, _ => acc
  | raw :: rest, acc, found =>
    match parseFolderName raw with
    | none => foldersLoop selC rest acc found
    | some fname =>
      match selC fname with
      | none => foldersLoop selC rest acc found
      | some count =>
        let dname := displayNameOf fname
        if dname ∈ found then foldersLoop selC rest acc found
        else foldersLoop selC rest (acc ++ [⟨dname, count⟩]) (dname :: found)

/-- Line 660: the sort key `(x.name != 'INBOX', x.name)` as a boolean
`≤` on `FolderInfo`. -/
def folderLe (a b : FolderInfo) : Bool :=
  let ra : Nat := if a.name = "INBOX" then 0 else 1
  let rb : Nat := if b.name = "INBOX" then 0 else 1
  if ra < rb then true
  else if rb < ra then false
  else listLe a.name.data b.name.data

/-- `folderLe` as a relation, for the sort.  `folders.sort(key=...)` is a
stable sort by this total preorder; it is modelled by stable insertion
sort, which agrees with any stable sort on the same key. -/
def folderRel (a b : FolderInfo) : Prop := folderLe a b = true

instance : DecidableRel folderRel :=
  fun a b => inferInstanceAs (Decidable (folderLe a b = true))

/-- The body of the `try` block of `get_folders` (lines 590-662). -/
def get_folders_core (env : Env) (uid : String) :
    List Event × Except Exc (List FolderInfo) :=
  match findUser env uid with
  | none => ([], Except.error (Exc.http ⟨404, "User not found"⟩))
  | some user =>
    match connect_imap user.imap_port env.connect with
    | Except.error e => ([], Except.error (Exc.http e))
    | Except.ok mb =>
      match mb.listFolders with
      | Except.error m =>
        ([Event.connected], Except.error (Exc.generic m))
      | Except.ok folder_list =>
        let folders := foldersLoop mb.selectCount folder_list [] []
        ([Event.connected, Event.loggedOut],
          Except.ok (List.insertionSort folderRel folders))

/-- `get_folders` (lines 585-668): like `sync_emails`, the generic
`except Exception` also swallows `HTTPException`s and re-raises HTTP
500 with `"Failed to get folders: " + str(e)`. -/
def get_folders (env : Env) (uid : String) :
    List Event × Except HErr (List FolderInfo) :=
  match get_folders_core env uid with
  | (ev, Except.ok r) => (ev, Except.ok r)
  | (ev, Except.error e) =>
    (ev, Except.error ⟨500, "Failed to get folders: " ++ excStr e⟩)

/-! ## `update_read_status` (server.py lines 443-465) -/

/-- The filter `{"id": email_id, "user_id": user_id}`. -/
def matchesEmail (eid uid : String) (e : EmailMessage) : Bool :=
  e.id == eid && e.user_id == uid

/-- `db.emails.update_one(filter, {"$set": {"is_read": v}})`: MongoDB
updates the first matching document only, setting just `is_read`;
returns the new collection and `matched_count`. -/
def update_one_emails (eid uid : String) (v : Bool) :
    List EmailMessage → List EmailMessage × Nat
  | [] => ([], 0)
  | e :: rest =>
    if matchesEmail eid uid e then ({ e with is_read := v } :: rest, 1)
    else
      match update_one_emails eid uid v rest with
      | (r, cnt) => (e :: r, cnt)

/-- `update_read_status` (lines 443-465): perform the update, then raise
404 if nothing matched (this handler re-raises `HTTPException`, so the
404 is delivered as such). -/
def update_read_status (emails : List EmailMessage) (eid uid : String)
    (v : Bool) : List EmailMessage × Except HErr String :=
  match update_one_emails eid uid v emails with
  | (emails2, mc) =>
    if mc = 0 then (emails2, Except.error ⟨404, "Email not found"⟩)
    else (emails2, Except.ok "Read status updated")

/-! ## Spec-side comparison definitions

These two definitions follow the specification's words rather than the
source; the theorems below compare the source-derived functions against
them. -/

/-- Spec-side body selection: the body of the given type is the first
non-attachment part of that content type whose decoded payload is
non-empty (a part decoding to the empty string leaves the slot open). -/
def firstTextBody (c : Codec) (ty : String) : List MimePart → String
  | [] => ""
  | p :: rest =>
    if strContains p.content_disposition "attachment" then
      firstTextBody c ty rest
    else if p.content_type = ty then
      match p.payload with
      | some d =>
        if c.utf8Ignore d ≠ "" then c.utf8Ignore d
        else firstTextBody c ty rest
      | none => firstTextBody c ty rest
    else firstTextBody c ty rest

/-- Spec-side view of the folder enumeration input: the listing entries
that parse and select successfully, as `(display name, count)` pairs in
listing order. -/
def effectiveEntries (selC : String → Option Nat) (fl : List String) :
    List (String × Nat) :=
  fl.filterMap (fun raw =>
    match parseFolderName raw with
    | none => none
    | some fn =>
      match selC fn with
      | none => none
      | some cnt => some (displayNameOf fn, cnt))

/-! ## Concrete fixtures for closed evaluations -/

/-- A concrete `bytes.decode(errors='ignore')`: keeps the ASCII bytes
(on which it agrees with Python) and drops the rest. -/
def asciiDecode (b : List Nat) : String :=
  String.mk (b.filterMap (fun n => if n < 128 then some (Char.ofNat n)
    else none))

/-- A concrete codec: headers decode to themselves as single `str`
fragments, every declared charset raises `LookupError`, and byte decoding
is `asciiDecode`. -/
def plainCodec : Codec :=
  { decodeHeader := fun s => Except.ok [HeaderSeg.txt s]
    charsetDecode := fun _ _ => none
    utf8Ignore := asciiDecode
    b64 := fun _ => ""
    parsedate := fun _ => none }

/-- Like `plainCodec`, but `decode_header` raises `HeaderParseError` on
the malformed base64 encoded-word `=?utf-8?B?a?=`, matching the verified
behaviour of the Python standard library on that input. -/
def hpeCodec : Codec :=
  { plainCodec with
    decodeHeader := fun s =>
      if s = "=?utf-8?B?a?=" then Except.error "HeaderParseError"
      else Except.ok [HeaderSeg.txt s] }

/-- A deterministic stand-in for the `uuid.uuid4()` stream. -/
def uuidStream (n : Nat) : String := "uuid-" ++ toString n

/-- A minimal non-multipart message carrying the given `Message-ID`. -/
def msgWithMid (mid : String) : MimeMsg :=
  { subject_h := none, from_h := none, to_h := none, cc_h := none
    date_h := none, message_id_h := some mid, multipart := false
    parts := [], content_type := "text/plain", payload := none }

/-- A mailbox whose every call succeeds trivially. -/
def mbIdle : Mailbox :=
  { select := fun _ => Except.ok ()
    search := Except.ok []
    fetch := fun _ => Except.ok none
    listFolders := Except.ok []
    selectCount := fun _ => none }

/-- A one-user environment around the given mailbox. -/
def envWith (mb : Mailbox) : Env :=
  { users := [("u1", ⟨"a@b.example", 993⟩)], connect := ConnectOutcome.ok mb }

/-- The sync request used by the closed evaluations. -/
def reqC : SyncRequest := ⟨"u1", "INBOX", 50⟩

/-- Two messages in the folder, both carrying `Message-ID` `"M"`. -/
def mbDupMid : Mailbox :=
  { mbIdle with
    search := Except.ok [1, 2]
    fetch := fun _ => Except.ok (some (msgWithMid "M")) }

/-- Fetching message 2 raises; message 1 is fetchable and parseable. -/
def mbFetchBoom : Mailbox :=
  { mbIdle with
    search := Except.ok [1, 2]
    fetch := fun n =>
      if n = 2 then Except.error "boom"
      else Except.ok (some (msgWithMid "M1")) }

/-- Selecting the folder raises after a successful login. -/
def mbSelBoom : Mailbox :=
  { mbIdle with select := fun _ => Except.error "selboom" }

/-- A multipart message with two `text/plain` and two `text/html` parts,
the first plain part carrying an empty payload. -/
def msgTwoPlainTwoHtml : MimeMsg :=
  { subject_h := none, from_h := none, to_h := none, cc_h := none
    date_h := none, message_id_h := some "M6", multipart := true
    parts :=
      [⟨"text/plain", "", none, some []⟩,
       ⟨"text/plain", "", none, some [104, 105]⟩,
       ⟨"text/html", "", none, some [97]⟩,
       ⟨"text/html", "", none, some [98]⟩]
    content_type := "multipart/mixed", payload := none }

/-- Two messages with distinct stable `Message-ID`s; fetching any other
identifier raises. -/
def mbTwoDistinct : Mailbox :=
  { mbIdle with
    search := Except.ok [1, 2]
    fetch := fun n =>
      if n = 1 then Except.ok (some (msgWithMid "M1"))
      else if n = 2 then Except.ok (some (msgWithMid "M2"))
      else Except.error "no such message" }

/-- A per-folder select/count oracle for the folder-listing fixtures:
the folder named `Broken` cannot be selected, every other folder reports
its name length as message count. -/
def selCountSample (n : String) : Option Nat :=
  if n = "Broken" then none else some n.data.length

/-- A server folder listing with quoted entries, a duplicate canonical
name (`INBOX`/`Inbox`), an unselectable folder, and an unquoted entry
exercising the fallback parse. -/
def flSample : List String :=
  ["() \"/\" \"Zeta\"", "() \"/\" \"INBOX\"", "() \"/\" \"Inbox\"",
   "() \"/\" \"Broken\"", "Alpha"]

/-- A mailbox serving `flSample` with `selCountSample`. -/
def mbFolders : Mailbox :=
  { mbIdle with
    listFolders := Except.ok flSample
    selectCount := selCountSample }

/-- A stored record with owner `"u1"` and id `"i1"` in `INBOX`. -/
def emlA : EmailMessage :=
  { id := "i1", message_id := "m1", subject := "", from_address := ""
    to_address := [], cc_address := [], body_text := "", body_html := ""
    attachments := [], folder := "INBOX", is_read := false, date := 0
    cached_at := 0, user_id := "u1" }

/-- A second record that carries the same `id` and owner as `emlA`. -/
def emlB : EmailMessage := { emlA with message_id := "m2" }

/-! ## Theorems -/

/-- C2: when the sync operation is invoked for an owner with no stored
credential record the code does NOT deliver the 404, and a failed
connect does NOT propagate its 401/408: the handler's generic
`except Exception` clause catches the `HTTPException`s and re-raises
HTTP 500 with the stringified original attached.  Evaluating the handler
at the three failing inputs exhibits the masking. -/
theorem C2_sync_error_masking :
    sync_emails plainCodec uuidStream 0 ⟨[], ConnectOutcome.ok mbIdle⟩ []
        reqC =
      ([], [], Except.error ⟨500, "Sync failed: 404: User not found"⟩) ∧
    sync_emails plainCodec uuidStream 0
        ⟨[("u1", ⟨"a@b.example", 993⟩)], ConnectOutcome.timeout⟩ [] reqC =
      ([], [], Except.error ⟨500,
        "Sync failed: 408: Connection timeout. Port 993 may be blocked by firewall. Try port 993 (SSL)"⟩) ∧
    sync_emails plainCodec uuidStream 0
        ⟨[("u1", ⟨"a@b.example", 993⟩)], ConnectOutcome.failure "bad login"⟩
        [] reqC =
      ([], [], Except.error ⟨500,
        "Sync failed: 401: IMAP connection failed: bad login"⟩) :=
  ⟨rfl, rfl, rfl⟩

/-- C5 counterexample: with maximum count `N = 0` (a value the request
model does not rule out) the slicing guard takes the whole list —
`message_list[-0:]` is `message_list[0:]` — so the operation selects 3
identifiers, not at most 0. -/
theorem C5_counterexample :
    takeLast 0 [1, 2, 3] = [1, 2, 3] ∧
    ¬ (takeLast 0 [1, 2, 3]).length ≤ 0 := by
  decide

/-- C5 amended: for every maximum count `N ≥ 1` the sync operation's
selection step keeps exactly the last `min (length) N` identifiers — a
suffix of the server-ordered list of length `min (length) N`, hence all
of them when fewer than `N` exist. -/
theorem C5_takeLast_last_min (limit : Int) (xs : List Nat)
    (h : 1 ≤ limit) :
    (takeLast limit xs).length = min xs.length limit.toNat ∧
    takeLast limit xs <:+ xs := by
  unfold takeLast pySliceFrom
  by_cases hgt : (xs.length : Int) > limit
  · rw [if_pos hgt]
    refine ⟨?_, List.drop_suffix _ _⟩
    rw [List.length_drop]
    omega
  · rw [if_neg hgt]
    exact ⟨by omega, List.suffix_refl _⟩

/-- C5 witness: the amended selection property evaluated at `N = 2` over
a 3-element listing. -/
theorem C5_takeLast_witness :
    (takeLast 2 [5, 6, 7]).length = min [5, 6, 7].length (2 : Int).toNat ∧
    takeLast 2 [5, 6, 7] <:+ [5, 6, 7] :=
  C5_takeLast_last_min 2 [5, 6, 7] (by decide)

/-- C7 counterexample: `decode_header(s)` is invoked outside the
function's `try`/`except` (which guards only `part.decode`), so on the
malformed base64 encoded-word `=?utf-8?B?a?=` — an input on which the
standard library's `decode_header` raises `HeaderParseError` — the
decoder propagates the exception instead of returning a text string.
The claim's totality ("must not throw for any malformed input")
therefore fails. -/
theorem C7_counterexample :
    hpeCodec.decodeHeader "=?utf-8?B?a?=" =
      Except.error "HeaderParseError" ∧
    decode_mime_words hpeCodec (some "=?utf-8?B?a?=") =
      Except.error "HeaderParseError" :=
  ⟨rfl, rfl⟩

/-- C7 amended: the MIME decoder returns a text string without raising
for `None`, the empty string, and every input on which `decode_header`
returns — `None`/empty yield exactly `""`, and a fragment whose declared
charset fails to decode falls back to UTF-8 with invalid bytes ignored —
but it is NOT total: `decode_header(s)` runs outside the per-fragment
exception handler, so any exception it raises (such as
`HeaderParseError` on a malformed base64 encoded-word) propagates
unhandled to the caller. -/
theorem C7_decoder_contract (c : Codec) :
    decode_mime_words c none = Except.ok "" ∧
    decode_mime_words c (some "") = Except.ok "" ∧
    (∀ (s : String) (parts : List HeaderSeg), s ≠ "" →
      c.decodeHeader s = Except.ok parts →
      decode_mime_words c (some s) =
        Except.ok (String.join (parts.map (decodeSeg c)))) ∧
    (∀ (b : List Nat) (enc : Option String),
      c.charsetDecode (normEnc enc) b = none →
      decodeSeg c (HeaderSeg.raw b enc) = c.utf8Ignore b) ∧
    (∀ (s e : String), s ≠ "" → c.decodeHeader s = Except.error e →
      decode_mime_words c (some s) = Except.error e) := by
  refine ⟨rfl, rfl, ?_, ?_, ?_⟩
  · intro s parts hs hdh
    simp [decode_mime_words, hs, hdh]
  · intro b enc h
    simp [decodeSeg, h]
  · intro s e hs hdh
    simp [decode_mime_words, hs, hdh]

/-- C7 witness: the amended decoder contract evaluated on the codec whose
`decode_header` raises on `=?utf-8?B?a?=`: the empty-input cases, a
well-formed header, the undecodable-charset fallback, and the
propagated raise. -/
theorem C7_decoder_witness :
    decode_mime_words hpeCodec none = Except.ok "" ∧
    decode_mime_words hpeCodec (some "") = Except.ok "" ∧
    decode_mime_words hpeCodec (some "Hello") =
      Except.ok (String.join
        ([HeaderSeg.txt "Hello"].map (decodeSeg hpeCodec))) ∧
    decodeSeg hpeCodec (HeaderSeg.raw [200] (some "latin-1")) =
      hpeCodec.utf8Ignore [200] ∧
    decode_mime_words hpeCodec (some "=?utf-8?B?a?=") =
      Except.error "HeaderParseError" :=
  ⟨(C7_decoder_contract hpeCodec).1,
   (C7_decoder_contract hpeCodec).2.1,
   (C7_decoder_contract hpeCodec).2.2.1 "Hello" [HeaderSeg.txt "Hello"]
     (by decide) rfl,
   (C7_decoder_contract hpeCodec).2.2.2.1 [200] (some "latin-1") rfl,
   (C7_decoder_contract hpeCodec).2.2.2.2 "=?utf-8?B?a?="
     "HeaderParseError" (by decide) rfl⟩

/-- Helper: `update_one` on a collection with no matching record leaves it
unchanged and reports `matched_count = 0`. -/
theorem update_one_emails_nomatch (eid uid : String) (v : Bool)
    (emails : List EmailMessage)
    (h : ∀ x ∈ emails, matchesEmail eid uid x = false) :
    update_one_emails eid uid v emails = (emails, 0) := by
  induction emails with
  | nil => rfl
  | cons e rest ih =>
    have he : matchesEmail eid uid e = false := h e (by simp)
    have hr := ih (fun x hx => h x (by simp [hx]))
    simp [update_one_emails, he, hr]

/-- Helper: `update_one` updates exactly the first matching record,
touching only its `is_read` field. -/
theorem update_one_emails_first (eid uid : String) (v : Bool)
    (e : EmailMessage) (post : List EmailMessage) (pre : List EmailMessage)
    (hpre : ∀ x ∈ pre, matchesEmail eid uid x = false)
    (he : matchesEmail eid uid e = true) :
    update_one_emails eid uid v (pre ++ e :: post) =
      (pre ++ { e with is_read := v } :: post, 1) := by
  induction pre with
  | nil => simp [update_one_emails, he]
  | cons p ps ih =>
    have hp : matchesEmail eid uid p = false := hpre p (by simp)
    have hr := ih (fun x hx => hpre x (by simp [hx]))
    simp [update_one_emails, hp, hr]

/-- C10 counterexample: with two stored records both matching the filter
(`emlA` and `emlB` share id `"i1"` and owner `"u1"`), the operation
leaves the second matched record completely unchanged — its `is_read`
stays `false` although `true` was requested — because MongoDB
`update_one` touches only the first match.  The claim's universal
quantification over every matched record therefore fails. -/
theorem C10_counterexample :
    (update_read_status [emlA, emlB] "i1" "u1" true).1 =
      [{ emlA with is_read := true }, emlB] ∧
    matchesEmail "i1" "u1" emlB = true ∧
    emlB.is_read = false :=
  ⟨rfl, rfl, rfl⟩

/-- C10 amended: the update-read-status operation sets `is_read` to the
requested value on the FIRST record matching id and owner, leaves every
other field of that record and every other record (later matches
included) unchanged, and reports success; when no record matches it
leaves the store unchanged and fails with the 404 signal. -/
theorem C10_update_read_frame :
    (∀ (pre post : List EmailMessage) (e : EmailMessage)
      (eid uid : String) (v : Bool),
      (∀ x ∈ pre, matchesEmail eid uid x = false) →
      matchesEmail eid uid e = true →
      update_read_status (pre ++ e :: post) eid uid v =
        (pre ++ { e with is_read := v } :: post,
          Except.ok "Read status updated")) ∧
    (∀ (emails : List EmailMessage) (eid uid : String) (v : Bool),
      (∀ x ∈ emails, matchesEmail eid uid x = false) →
      update_read_status emails eid uid v =
        (emails, Except.error ⟨404, "Email not found"⟩)) := by
  constructor
  · intro pre post e eid uid v hpre he
    unfold update_read_status
    rw [update_one_emails_first eid uid v e post pre hpre he]
    simp
  · intro emails eid uid v h
    unfold update_read_status
    rw [update_one_emails_nomatch eid uid v emails h]
    simp

/-- C10 witness: the amended frame property evaluated on a two-record
store whose first record matches, and the 404 branch evaluated on a
store with no match. -/
theorem C10_update_read_witness :
    update_read_status ([] ++ emlA :: [emlB]) "i1" "u1" true =
      ([] ++ { emlA with is_read := true } :: [emlB],
        Except.ok "Read status updated") ∧
    update_read_status [emlB] "zz" "u1" true =
      ([emlB], Except.error ⟨404, "Email not found"⟩) :=
  ⟨C10_update_read_frame.1 [] [emlB] emlA "i1" "u1" true (by simp) rfl,
   C10_update_read_frame.2 [emlB] "zz" "u1" true (by decide)⟩

/-- C4 counterexample: the folder holds messages 1 and 2; fetching
message 2 (processed first) raises, and the whole operation aborts with
HTTP 500 — message 1, whose fetch would succeed and parse, is never
persisted (the final collection is empty).  A single bad fetch therefore
does prevent later messages from being persisted. -/
theorem C4_counterexample :
    sync_emails plainCodec uuidStream 0 (envWith mbFetchBoom) [] reqC =
      ([], [Event.connected], Except.error ⟨500, "Sync failed: boom"⟩) ∧
    mbFetchBoom.fetch 1 = Except.ok (some (msgWithMid "M1")) :=
  ⟨rfl, rfl⟩

/-- C8 counterexample: the session opens (login succeeds, `connected` is
traced) and then selecting the folder raises; the handler propagates the
error without ever invoking logout — the trace contains no `loggedOut`
event. -/
theorem C8_counterexample :
    sync_emails plainCodec uuidStream 0 (envWith mbSelBoom) [] reqC =
      ([], [Event.connected], Except.error ⟨500, "Sync failed: selboom"⟩) ∧
    Event.loggedOut ∉ [Event.connected] :=
  ⟨rfl, by decide⟩

/-- C6 counterexample: a multipart payload with two `text/plain` and two
`text/html` parts where the first plain part's payload decodes to the
empty string: the parser's `and not body_text` guard lets the SECOND
plain part be captured (`body_text = "hi"`, the decode of the second
part's bytes `[104, 105]`), so the later part of the same type is not
ignored. -/
theorem C6_counterexample :
    (parse_email_message plainCodec "a" "b" 0 (some msgTwoPlainTwoHtml)
      "u1" "INBOX").map EmailMessage.body_text = some "hi" ∧
    msgTwoPlainTwoHtml.parts.map MimePart.payload =
      [some [], some [104, 105], some [97], some [98]] ∧
    plainCodec.utf8Ignore [104, 105] = "hi" :=
  ⟨rfl, rfl, rfl⟩

/-- C1 counterexample: an empty store and one sync over a folder holding
two messages that both carry `Message-ID` `"M"`: the dedup set is loaded
once before the loop and never extended, so both batch members are
inserted and the `(owner, folder)` pair ends up with two persisted
records sharing the same protocol message identifier. -/
theorem C1_counterexample :
    existingIds (sync_emails plainCodec uuidStream 0 (envWith mbDupMid) []
      reqC).1 "u1" "INBOX" = ["M", "M"] ∧
    ¬ (existingIds (sync_emails plainCodec uuidStream 0 (envWith mbDupMid)
      [] reqC).1 "u1" "INBOX").Nodup := by
  refine ⟨rfl, ?_⟩
  rw [show existingIds (sync_emails plainCodec uuidStream 0
    (envWith mbDupMid) [] reqC).1 "u1" "INBOX" = ["M", "M"] from rfl]
  decide

/-- C4 amended: inside the sync loop only a PARSE failure is tolerated — a
fetched message on which `parse_email_message` returns `None` is skipped
and iteration continues with the remaining identifiers, and whenever
every selected fetch returns (no fetch raises) the whole batch runs to
completion.  A raising fetch, by contrast, aborts the operation (the loop
has no per-message `try`), as `C4_counterexample` shows; pre-loop
failures abort as well. -/
theorem C4_parse_skip_fetch_complete (c : Codec) (u : Nat → String)
    (now : Nat) (mb : Mailbox) (uid fdr : String) (ex : List String) :
    (∀ (n : Nat) (rest : List Nat) (emails : List EmailMessage)
      (cnt uidx : Nat), mb.fetch n = Except.ok none →
      fetchLoop c u now mb uid fdr ex (n :: rest) emails cnt uidx =
        fetchLoop c u now mb uid fdr ex rest emails cnt (uidx + 2)) ∧
    (∀ (nums : List Nat), (∀ n ∈ nums, ∃ r, mb.fetch n = Except.ok r) →
      ∀ (emails : List EmailMessage) (cnt uidx : Nat),
      ∃ emails2 cnt2,
        fetchLoop c u now mb uid fdr ex nums emails cnt uidx =
          (emails2, Except.ok cnt2)) := by
  constructor
  · intro n rest emails cnt uidx h
    simp [fetchLoop, h, parse_email_message]
  · intro nums
    induction nums with
    | nil => exact fun _ emails cnt uidx => ⟨emails, cnt, rfl⟩
    | cons n rest ih =>
      intro h emails cnt uidx
      obtain ⟨r, hr⟩ := h n (by simp)
      have hrest := ih (fun m hm => h m (by simp [hm]))
      cases r with
      | none =>
        simp only [fetchLoop, hr, parse_email_message]
        exact hrest emails cnt (uidx + 2)
      | some m =>
        simp only [fetchLoop, hr]
        cases hpe : parse_email_message c (u uidx) (u (uidx + 1)) now
            (some m) uid fdr with
        | none =>
          simp only [hpe]
          exact hrest emails cnt (uidx + 2)
        | some em =>
          simp only [hpe]
          split
          · exact hrest emails cnt (uidx + 2)
          · exact hrest _ (cnt + 1) (uidx + 2)

/-- C4 witness: the skip property evaluated on a mailbox whose message 1
is fetchable but unparseable, and batch completion evaluated on a
two-message batch with all fetches succeeding. -/
theorem C4_parse_skip_witness :
    fetchLoop plainCodec uuidStream 0 mbIdle "u1" "INBOX" [] [1] [] 0 0 =
      fetchLoop plainCodec uuidStream 0 mbIdle "u1" "INBOX" [] [] [] 0 2 ∧
    ∃ emails2 cnt2,
      fetchLoop plainCodec uuidStream 0 mbDupMid "u1" "INBOX" [] [2, 1] []
        0 0 = (emails2, Except.ok cnt2) :=
  ⟨(C4_parse_skip_fetch_complete plainCodec uuidStream 0 mbIdle "u1"
      "INBOX" []).1 1 [] [] 0 0 rfl,
   (C4_parse_skip_fetch_complete plainCodec uuidStream 0 mbDupMid "u1"
      "INBOX" []).2 [2, 1] (fun _ _ => ⟨some (msgWithMid "M"), rfl⟩) [] 0 0⟩

/-- Helper: once `body_text` is non-empty, no later part changes it. -/
theorem processPart_fst (c : Codec) (p : MimePart) (st : BodyState)
    (h : st.1 ≠ "") : (processPart c st p).1 = st.1 := by
  unfold processPart
  dsimp only
  repeat' split
  all_goals first | rfl | simp_all

/-- Helper: once `body_html` is non-empty, no later part changes it. -/
theorem processPart_snd (c : Codec) (p : MimePart) (st : BodyState)
    (h : st.2.1 ≠ "") : (processPart c st p).2.1 = st.2.1 := by
  unfold processPart
  dsimp only
  repeat' split
  all_goals first | rfl | simp_all

/-- Helper: `processPart` folded over any tail keeps a non-empty
`body_text`. -/
theorem foldl_fst_stable (c : Codec) (parts : List MimePart) :
    ∀ st : BodyState, st.1 ≠ "" →
    (parts.foldl (processPart c) st).1 = st.1 := by
  induction parts with
  | nil => intro st _; rfl
  | cons p rest ih =>
    intro st h
    have h1 := processPart_fst c p st h
    rw [List.foldl_cons, ih (processPart c st p) (by rw [h1]; exact h), h1]

/-- Helper: `processPart` folded over any tail keeps a non-empty
`body_html`. -/
theorem foldl_snd_stable (c : Codec) (parts : List MimePart) :
    ∀ st : BodyState, st.2.1 ≠ "" →
    (parts.foldl (processPart c) st).2.1 = st.2.1 := by
  induction parts with
  | nil => intro st _; rfl
  | cons p rest ih =>
    intro st h
    have h1 := processPart_snd c p st h
    rw [List.foldl_cons, ih (processPart c st p) (by rw [h1]; exact h), h1]

/-- Helper: an attachment-flagged part touches only the attachment list. -/
theorem processPart_att (c : Codec) (p : MimePart) (st : BodyState)
    (ha : strContains p.content_disposition "attachment" = true) :
    ∃ X, processPart c st p = (st.1, st.2.1, X) := by
  unfold processPart
  dsimp only
  rw [if_pos ha]
  repeat' split
  all_goals exact ⟨_, rfl⟩

/-- Helper: outside the attachment and plain-body branches, `body_text`
is untouched. -/
theorem processPart_noatt_fst (c : Codec) (p : MimePart) (st : BodyState)
    (ha : ¬ strContains p.content_disposition "attachment" = true)
    (hp : ¬ (p.content_type = "text/plain" ∧ st.1 = "")) :
    ∃ Y, processPart c st p = (st.1, Y, st.2.2) := by
  unfold processPart
  dsimp only
  rw [if_neg ha, if_neg hp]
  repeat' split
  all_goals exact ⟨_, rfl⟩

/-- Helper: outside the attachment and HTML-body branches, `body_html`
is untouched. -/
theorem processPart_noatt_snd (c : Codec) (p : MimePart) (st : BodyState)
    (ha : ¬ strContains p.content_disposition "attachment" = true)
    (hh : ¬ (p.content_type = "text/html" ∧ st.2.1 = "")) :
    ∃ X, processPart c st p = (X, st.2.1, st.2.2) := by
  unfold processPart
  dsimp only
  rw [if_neg ha]
  repeat' split
  all_goals exact ⟨_, rfl⟩

/-- Helper: the walked fold computes exactly the spec-side
first-non-empty `text/plain` body. -/
theorem foldl_fst_firstText (c : Codec) :
    ∀ (parts : List MimePart) (bh : String) (atts : List EmailAttachment),
    (parts.foldl (processPart c) ("", bh, atts)).1 =
      firstTextBody c "text/plain" parts := by
  intro parts
  induction parts with
  | nil => intro bh atts; rfl
  | cons p rest ih =>
    intro bh atts
    rw [List.foldl_cons]
    by_cases ha : strContains p.content_disposition "attachment" = true
    · obtain ⟨X, hX⟩ := processPart_att c p ("", bh, atts) ha
      rw [hX, show firstTextBody c "text/plain" (p :: rest) =
        firstTextBody c "text/plain" rest from by simp [firstTextBody, ha]]
      exact ih bh X
    · by_cases hp : p.content_type = "text/plain"
      · cases hd : p.payload with
        | none =>
          have hres : processPart c ("", bh, atts) p = ("", bh, atts) := by
            unfold processPart
            dsimp only
            rw [if_neg ha, if_pos ⟨hp, rfl⟩, hd]
          rw [hres, show firstTextBody c "text/plain" (p :: rest) =
            firstTextBody c "text/plain" rest from by
              simp [firstTextBody, ha, hp, hd]]
          exact ih bh atts
        | some d =>
          have hres : processPart c ("", bh, atts) p =
              (c.utf8Ignore d, bh, atts) := by
            unfold processPart
            dsimp only
            rw [if_neg ha, if_pos ⟨hp, rfl⟩, hd]
          rw [hres]
          by_cases he : c.utf8Ignore d = ""
          · rw [he, show firstTextBody c "text/plain" (p :: rest) =
              firstTextBody c "text/plain" rest from by
                simp [firstTextBody, ha, hp, hd, he]]
            exact ih bh atts
          · rw [foldl_fst_stable c rest (c.utf8Ignore d, bh, atts) he]
            simp [firstTextBody, ha, hp, hd, he]
      · obtain ⟨Y, hY⟩ := processPart_noatt_fst c p ("", bh, atts) ha
          (fun hc => hp hc.1)
        rw [hY, show firstTextBody c "text/plain" (p :: rest) =
          firstTextBody c "text/plain" rest from by
            simp [firstTextBody, ha, hp]]
        exact ih Y atts

/-- Helper: the walked fold computes exactly the spec-side
first-non-empty `text/html` body. -/
theorem foldl_snd_firstText (c : Codec) :
    ∀ (parts : List MimePart) (bt : String) (atts : List EmailAttachment),
    (parts.foldl (processPart c) (bt, "", atts)).2.1 =
      firstTextBody c "text/html" parts := by
  intro parts
  induction parts with
  | nil => intro bt atts; rfl
  | cons p rest ih =>
    intro bt atts
    rw [List.foldl_cons]
    by_cases ha : strContains p.content_disposition "attachment" = true
    · obtain ⟨X, hX⟩ := processPart_att c p (bt, "", atts) ha
      rw [hX, show firstTextBody c "text/html" (p :: rest) =
        firstTextBody c "text/html" rest from by simp [firstTextBody, ha]]
      exact ih bt X
    · by_cases hh : p.content_type = "text/html"
      · have hnp : ¬ (p.content_type = "text/plain" ∧ bt = "") := by
          intro hc
          rw [hh] at hc
          exact absurd hc.1 (by decide)
        cases hd : p.payload with
        | none =>
          have hres : processPart c (bt, "", atts) p = (bt, "", atts) := by
            unfold processPart
            dsimp only
            rw [if_neg ha, if_neg hnp, if_pos ⟨hh, rfl⟩, hd]
          rw [hres, show firstTextBody c "text/html" (p :: rest) =
            firstTextBody c "text/html" rest from by
              simp [firstTextBody, ha, hh, hd]]
          exact ih bt atts
        | some d =>
          have hres : processPart c (bt, "", atts) p =
              (bt, c.utf8Ignore d, atts) := by
            unfold processPart
            dsimp only
            rw [if_neg ha, if_neg hnp, if_pos ⟨hh, rfl⟩, hd]
          rw [hres]
          by_cases he : c.utf8Ignore d = ""
          · rw [he, show firstTextBody c "text/html" (p :: rest) =
              firstTextBody c "text/html" rest from by
                simp [firstTextBody, ha, hh, hd, he]]
            exact ih bt atts
          · rw [foldl_snd_stable c rest (bt, c.utf8Ignore d, atts) he]
            simp [firstTextBody, ha, hh, hd, he]
      · obtain ⟨X, hX⟩ := processPart_noatt_snd c p (bt, "", atts) ha
          (fun hc => hh hc.1)
        rw [hX, show firstTextBody c "text/html" (p :: rest) =
          firstTextBody c "text/html" rest from by
            simp [firstTextBody, ha, hh]]
        exact ih X atts

/-- C6 amended: on every multipart message the parser's plain body is the
first `text/plain` occurrence whose decoded payload is NON-EMPTY, and
likewise for the HTML body — a part decoding to the empty string does
not claim the slot, so a later part of the same type can still be
captured (`C6_counterexample`); when the first occurrence of each type
decodes non-empty, it wins and all later parts of that type are
ignored, as the claim states. -/
theorem C6_first_nonempty_wins (c : Codec) (u1 u2 : String) (now : Nat)
    (m : MimeMsg) (uid fdr : String) (em : EmailMessage)
    (hm : m.multipart = true)
    (hp : parse_email_message c u1 u2 now (some m) uid fdr = some em) :
    em.body_text = firstTextBody c "text/plain" m.parts ∧
    em.body_html = firstTextBody c "text/html" m.parts := by
  simp only [parse_email_message, hm, if_true] at hp
  cases hs : decode_mime_words c (some (m.subject_h.getD "No Subject")) with
  | error e => simp [hs] at hp
  | ok subject =>
    simp only [hs] at hp
    injection hp with hp
    subst hp
    exact ⟨foldl_fst_firstText c m.parts "" [],
      foldl_snd_firstText c m.parts "" []⟩

/-- C6 witness: the amended first-non-empty-wins property evaluated on
the concrete 2-plain/2-html message. -/
theorem C6_first_nonempty_witness :
    ((parse_email_message plainCodec "a" "b" 0 (some msgTwoPlainTwoHtml)
      "u1" "INBOX").getD emlA).body_text =
        firstTextBody plainCodec "text/plain" msgTwoPlainTwoHtml.parts ∧
    ((parse_email_message plainCodec "a" "b" 0 (some msgTwoPlainTwoHtml)
      "u1" "INBOX").getD emlA).body_html =
        firstTextBody plainCodec "text/html" msgTwoPlainTwoHtml.parts :=
  C6_first_nonempty_wins plainCodec "a" "b" 0 msgTwoPlainTwoHtml "u1"
    "INBOX" ((parse_email_message plainCodec "a" "b" 0
      (some msgTwoPlainTwoHtml) "u1" "INBOX").getD emlA) rfl rfl

/-- Helper: trace shape of the sync try-body — logout is traced exactly
on the fully successful path. -/
theorem sync_core_trace (c : Codec) (u : Nat → String) (now : Nat)
    (env : Env) (emails : List EmailMessage) (req : SyncRequest) :
    (∀ cnt, (sync_core c u now env emails req).2.2 = Except.ok cnt →
      (sync_core c u now env emails req).2.1 =
        [Event.connected, Event.loggedOut]) ∧
    (∀ e, (sync_core c u now env emails req).2.2 = Except.error e →
      Event.loggedOut ∉ (sync_core c u now env emails req).2.1) := by
  unfold sync_core
  dsimp only
  repeat' split
  all_goals exact ⟨fun z hz => by simp_all, fun z hz => by simp_all⟩

/-- Helper: trace shape of the folder-listing try-body. -/
theorem folders_core_trace (env : Env) (uid : String) :
    (∀ fs, (get_folders_core env uid).2 = Except.ok fs →
      (get_folders_core env uid).1 = [Event.connected, Event.loggedOut]) ∧
    (∀ e, (get_folders_core env uid).2 = Except.error e →
      Event.loggedOut ∉ (get_folders_core env uid).1) := by
  unfold get_folders_core
  dsimp only
  repeat' split
  all_goals exact ⟨fun z hz => by simp_all, fun z hz => by simp_all⟩

/-- C8 amended: in both the sync and the folder-listing operations,
logout is invoked exactly on the fully successful path: a successful
return carries the trace `[connected, loggedOut]`, while EVERY error
return — including error paths reached after the open succeeded, such as
a failing folder select (`C8_counterexample`) — carries a trace without
`loggedOut`, because neither handler has a `finally` pairing the open
with a logout. -/
theorem C8_logout_only_on_success :
    (∀ (c : Codec) (u : Nat → String) (now : Nat) (env : Env)
      (emails : List EmailMessage) (req : SyncRequest)
      (emails2 : List EmailMessage) (ev : List Event)
      (r : Except HErr Nat),
      sync_emails c u now env emails req = (emails2, ev, r) →
      ((∃ cnt, r = Except.ok cnt) →
        ev = [Event.connected, Event.loggedOut]) ∧
      ((∃ e, r = Except.error e) → Event.loggedOut ∉ ev)) ∧
    (∀ (env : Env) (uid : String) (ev : List Event)
      (r : Except HErr (List FolderInfo)),
      get_folders env uid = (ev, r) →
      ((∃ fs, r = Except.ok fs) →
        ev = [Event.connected, Event.loggedOut]) ∧
      ((∃ e, r = Except.error e) → Event.loggedOut ∉ ev)) := by
  constructor
  · intro c u now env emails req emails2 ev r h
    have hc := sync_core_trace c u now env emails req
    unfold sync_emails at h
    rcases hsc : sync_core c u now env emails req with ⟨a, b, rc⟩
    rw [hsc] at h
    simp only [hsc] at hc
    cases rc with
    | ok cnt =>
      dsimp only at h
      cases h
      refine ⟨fun _ => hc.1 cnt rfl, ?_⟩
      rintro ⟨e, he⟩
      exact absurd he (by simp)
    | error ex =>
      dsimp only at h
      cases h
      refine ⟨?_, fun _ => hc.2 ex rfl⟩
      rintro ⟨cnt, hcnt⟩
      exact absurd hcnt (by simp)
  · intro env uid ev r h
    have hc := folders_core_trace env uid
    unfold get_folders at h
    rcases hsc : get_folders_core env uid with ⟨b, rc⟩
    rw [hsc] at h
    simp only [hsc] at hc
    cases rc with
    | ok fs =>
      dsimp only at h
      cases h
      refine ⟨fun _ => hc.1 fs rfl, ?_⟩
      rintro ⟨e, he⟩
      exact absurd he (by simp)
    | error ex =>
      dsimp only at h
      cases h
      refine ⟨?_, fun _ => hc.2 ex rfl⟩
      rintro ⟨fs, hfs⟩
      exact absurd hfs (by simp)

/-- C8 witness: the trace characterisation evaluated on a successful sync,
a sync whose folder select raises after the open, and a successful
folder listing. -/
theorem C8_logout_witness :
    (sync_emails plainCodec uuidStream 0 (envWith mbIdle) [] reqC).2.1 =
      [Event.connected, Event.loggedOut] ∧
    Event.loggedOut ∉
      (sync_emails plainCodec uuidStream 0 (envWith mbSelBoom) []
        reqC).2.1 ∧
    (get_folders (envWith mbIdle) "u1").1 =
      [Event.connected, Event.loggedOut] :=
  ⟨(C8_logout_only_on_success.1 plainCodec uuidStream 0 (envWith mbIdle)
      [] reqC
      (sync_emails plainCodec uuidStream 0 (envWith mbIdle) [] reqC).1
      (sync_emails plainCodec uuidStream 0 (envWith mbIdle) [] reqC).2.1
      (sync_emails plainCodec uuidStream 0 (envWith mbIdle) [] reqC).2.2
      rfl).1 ⟨0, rfl⟩,
   (C8_logout_only_on_success.1 plainCodec uuidStream 0 (envWith mbSelBoom)
      [] reqC
      (sync_emails plainCodec uuidStream 0 (envWith mbSelBoom) [] reqC).1
      (sync_emails plainCodec uuidStream 0 (envWith mbSelBoom) []
        reqC).2.1
      (sync_emails plainCodec uuidStream 0 (envWith mbSelBoom) []
        reqC).2.2
      rfl).2 ⟨⟨500, "Sync failed: selboom"⟩, rfl⟩,
   (C8_logout_only_on_success.2 (envWith mbIdle) "u1"
      (get_folders (envWith mbIdle) "u1").1
      (get_folders (envWith mbIdle) "u1").2 rfl).1 ⟨[], rfl⟩⟩

/-- Helper: the persisted-id view distributes over append. -/
theorem existingIds_append (emails t : List EmailMessage)
    (uid fdr : String) :
    existingIds (emails ++ t) uid fdr =
      existingIds emails uid fdr ++ existingIds t uid fdr := by
  simp [existingIds, List.filter_append]

/-- Helper: a stored record's `message_id` is in the persisted-id view of
its `(owner, folder)` pair. -/
theorem mem_existingIds (e : EmailMessage) (emails : List EmailMessage)
    (he : e ∈ emails) (uid fdr : String) (hu : e.user_id = uid)
    (hf : e.folder = fdr) : e.message_id ∈ existingIds emails uid fdr := by
  unfold existingIds
  exact List.mem_map_of_mem _ (List.mem_filter.mpr ⟨he, by simp [hu, hf]⟩)

/-- Helper: the limit slice is a sublist of the search result. -/
theorem takeLast_sublist (limit : Int) (xs : List Nat) :
    (takeLast limit xs).Sublist xs := by
  unfold takeLast pySliceFrom
  split
  · exact List.drop_sublist _ _
  · exact List.Sublist.refl _

/-- Helper: the fields of a successfully parsed record that the sync
loop consults. -/
theorem parse_some_fields (c : Codec) (u1 u2 : String) (now : Nat)
    (m : MimeMsg) (uid fdr : String) (em : EmailMessage)
    (h : parse_email_message c u1 u2 now (some m) uid fdr = some em) :
    em.message_id = m.message_id_h.getD u2 ∧ em.user_id = uid ∧
    em.folder = fdr := by
  simp only [parse_email_message] at h
  cases hs : decode_mime_words c (some (m.subject_h.getD "No Subject")) with
  | error e => simp [hs] at h
  | ok subject =>
    simp only [hs] at h
    injection h with h
    subst h
    exact ⟨rfl, rfl, rfl⟩

/-- Helper: parsing an intact MIME structure fails exactly when decoding
its Subject header raises. -/
theorem parse_none_iff (c : Codec) (u1 u2 : String) (now : Nat)
    (m : MimeMsg) (uid fdr : String) :
    parse_email_message c u1 u2 now (some m) uid fdr = none ↔
      subjectOk c m = false := by
  unfold parse_email_message subjectOk
  cases h : decode_mime_words c (some (m.subject_h.getD "No Subject")) <;>
    simp [h]

/-- Helper: postcondition of a completed sync loop — the store only
grew, and every fetched message whose Subject decodes (so parsing
returned a record) and which carries a `Message-ID` ends up with that id
either persisted or already in the pre-loaded set. -/
theorem fetchLoop_post (c : Codec) (u : Nat → String) (now : Nat)
    (mb : Mailbox) (uid fdr : String) (ex : List String) :
    ∀ (nums : List Nat) (emails : List EmailMessage) (cnt uidx : Nat)
      (emails1 : List EmailMessage) (c1 : Nat),
    fetchLoop c u now mb uid fdr ex nums emails cnt uidx =
      (emails1, Except.ok c1) →
    (∃ t, emails1 = emails ++ t) ∧
    (∀ n ∈ nums, ∃ r, mb.fetch n = Except.ok r ∧
      ∀ m p, r = some m → subjectOk c m = true →
        m.message_id_h = some p →
        p ∈ existingIds emails1 uid fdr ∨ p ∈ ex) := by
  intro nums
  induction nums with
  | nil =>
    intro emails cnt uidx emails1 c1 h
    unfold fetchLoop at h
    injection h with h1 h2
    subst h1
    exact ⟨⟨[], by simp⟩, by simp⟩
  | cons n rest ih =>
    intro emails cnt uidx emails1 c1 h
    cases hf : mb.fetch n with
    | error m =>
      simp only [fetchLoop, hf] at h
      exact absurd h (by simp)
    | ok md =>
      simp only [fetchLoop, hf] at h
      cases md with
      | none =>
        simp only [parse_email_message] at h
        obtain ⟨⟨t, ht⟩, hrest⟩ := ih emails cnt (uidx + 2) emails1 c1 h
        refine ⟨⟨t, ht⟩, ?_⟩
        intro n' hn'
        rcases List.mem_cons.mp hn' with rfl | hn'
        · exact ⟨none, hf, fun m p hm => absurd hm (by simp)⟩
        · exact hrest n' hn'
      | some m =>
        cases hpe : parse_email_message c (u uidx) (u (uidx + 1)) now
            (some m) uid fdr with
        | none =>
          simp only [hpe] at h
          have hsf := (parse_none_iff c (u uidx) (u (uidx + 1)) now m uid
            fdr).mp hpe
          obtain ⟨⟨t, ht⟩, hrest⟩ := ih emails cnt (uidx + 2) emails1 c1 h
          refine ⟨⟨t, ht⟩, ?_⟩
          intro n' hn'
          rcases List.mem_cons.mp hn' with rfl | hn'
          · refine ⟨some m, hf, ?_⟩
            intro m' p hm' hso
            injection hm' with hm'
            subst hm'
            rw [hsf] at hso
            exact absurd hso (by simp)
          · exact hrest n' hn'
        | some em =>
          simp only [hpe] at h
          obtain ⟨hid, huid, hfdr⟩ :=
            parse_some_fields c _ _ now m uid fdr em hpe
          split at h
          · rename_i hmem
            obtain ⟨⟨t, ht⟩, hrest⟩ := ih emails cnt (uidx + 2) emails1 c1 h
            refine ⟨⟨t, ht⟩, ?_⟩
            intro n' hn'
            rcases List.mem_cons.mp hn' with rfl | hn'
            · refine ⟨some m, hf, ?_⟩
              intro m' p hm' _ hp
              injection hm' with hm'
              subst hm'
              right
              rw [hid, hp] at hmem
              exact hmem
            · exact hrest n' hn'
          · obtain ⟨⟨t, ht⟩, hrest⟩ := ih _ (cnt + 1) (uidx + 2) emails1 c1 h
            constructor
            · exact ⟨[em] ++ t, by rw [ht, List.append_assoc]⟩
            · intro n' hn'
              rcases List.mem_cons.mp hn' with rfl | hn'
              · refine ⟨some m, hf, ?_⟩
                intro m' p hm' _ hp
                injection hm' with hm'
                subst hm'
                left
                have hememb : em ∈ emails1 := by
                  rw [ht]
                  exact List.mem_append_left _
                    (List.mem_append_right _ (by simp))
                have hm2 := mem_existingIds em emails1 hememb uid fdr huid
                  hfdr
                rw [hid, hp] at hm2
                exact hm2
              · exact hrest n' hn'

/-- Helper: a sync loop in which every fetched message's id is already in
the pre-loaded set inserts nothing and counts nothing. -/
theorem fetchLoop_noop (c : Codec) (u : Nat → String) (now : Nat)
    (mb : Mailbox) (uid fdr : String) (ex : List String) :
    ∀ (nums : List Nat) (emails : List EmailMessage) (cnt uidx : Nat),
    (∀ n ∈ nums, ∃ r, mb.fetch n = Except.ok r ∧
      ∀ m, r = some m → subjectOk c m = true →
        ∃ p, m.message_id_h = some p ∧ p ∈ ex) →
    fetchLoop c u now mb uid fdr ex nums emails cnt uidx =
      (emails, Except.ok cnt) := by
  intro nums
  induction nums with
  | nil => intro emails cnt uidx _; rfl
  | cons n rest ih =>
    intro emails cnt uidx hh
    obtain ⟨r, hr, hm⟩ := hh n (by simp)
    have hrest := ih emails cnt (uidx + 2)
      (fun n' hn' => hh n' (by simp [hn']))
    cases r with
    | none =>
      simp only [fetchLoop, hr, parse_email_message]
      exact hrest
    | some m =>
      cases hpe : parse_email_message c (u uidx) (u (uidx + 1)) now
          (some m) uid fdr with
      | none =>
        simp only [fetchLoop, hr, hpe]
        exact hrest
      | some em =>
        have hso : subjectOk c m = true := by
          cases hq : subjectOk c m with
          | true => rfl
          | false =>
            have hno := (parse_none_iff c (u uidx) (u (uidx + 1)) now m uid
              fdr).mpr hq
            rw [hpe] at hno
            exact absurd hno (by simp)
        obtain ⟨p, hp, hpex⟩ := hm m rfl hso
        obtain ⟨hid, _, _⟩ := parse_some_fields c _ _ now m uid fdr em hpe
        have hmem : em.message_id ∈ ex := by
          rw [hid, hp]
          exact hpex
        simp only [fetchLoop, hr, hpe, hmem, if_pos]
        exact hrest

/-- Helper: the sync loop preserves uniqueness of persisted ids for its
`(owner, folder)` pair provided the fetched batch carries present and
pairwise-distinct `Message-ID`s. -/
theorem fetchLoop_nodup (c : Codec) (u : Nat → String) (now : Nat)
    (mb : Mailbox) (uid fdr : String) (ex : List String)
    (hmid : ∀ n m, mb.fetch n = Except.ok (some m) →
      m.message_id_h.isSome)
    (hdist : ∀ n1 n2 m1 m2 p, n1 ≠ n2 →
      mb.fetch n1 = Except.ok (some m1) →
      mb.fetch n2 = Except.ok (some m2) → m1.message_id_h = some p →
      m2.message_id_h = some p → False) :
    ∀ (nums : List Nat) (emails : List EmailMessage) (cnt uidx : Nat),
    nums.Nodup →
    (∀ n m p, n ∈ nums → mb.fetch n = Except.ok (some m) →
      m.message_id_h = some p → p ∉ ex →
      p ∉ existingIds emails uid fdr) →
    (existingIds emails uid fdr).Nodup →
    (existingIds (fetchLoop c u now mb uid fdr ex nums emails cnt
      uidx).1 uid fdr).Nodup ∧
    (∀ uf ff, ¬ (uf = uid ∧ ff = fdr) →
      existingIds (fetchLoop c u now mb uid fdr ex nums emails cnt
        uidx).1 uf ff = existingIds emails uf ff) := by
  intro nums
  induction nums with
  | nil =>
    intro emails cnt uidx _ _ hids
    exact ⟨hids, fun _ _ _ => rfl⟩
  | cons n rest ih =>
    intro emails cnt uidx hnd hinv hids
    have hn_rest : n ∉ rest := (List.nodup_cons.mp hnd).1
    have hrest_nd : rest.Nodup := (List.nodup_cons.mp hnd).2
    cases hf : mb.fetch n with
    | error m =>
      constructor
      · simp only [fetchLoop, hf]
        exact hids
      · intro uf ff _
        simp only [fetchLoop, hf]
    | ok md =>
      cases md with
      | none =>
        simp only [fetchLoop, hf, parse_email_message]
        exact ih emails cnt (uidx + 2) hrest_nd
          (fun n' m' p' hn' => hinv n' m' p' (by simp [hn'])) hids
      | some m =>
        obtain ⟨p, hp⟩ := Option.isSome_iff_exists.mp (hmid n m hf)
        cases hpe : parse_email_message c (u uidx) (u (uidx + 1)) now
            (some m) uid fdr with
        | none =>
          simp only [fetchLoop, hf, hpe]
          exact ih emails cnt (uidx + 2) hrest_nd
            (fun n' m' p' hn' => hinv n' m' p' (by simp [hn'])) hids
        | some em =>
          obtain ⟨hid, huid, hfdr⟩ :=
            parse_some_fields c _ _ now m uid fdr em hpe
          have hemid : em.message_id = p := by rw [hid, hp]; rfl
          simp only [fetchLoop, hf, hpe]
          by_cases hmem : em.message_id ∈ ex
          · rw [if_pos hmem]
            exact ih emails cnt (uidx + 2) hrest_nd
              (fun n' m' p' hn' => hinv n' m' p' (by simp [hn'])) hids
          · rw [if_neg hmem]
            have hpnotex : p ∉ ex := by rw [← hemid]; exact hmem
            have hpnotids : p ∉ existingIds emails uid fdr :=
              hinv n m p (by simp) hf hp hpnotex
            have hsingle : existingIds [em] uid fdr = [p] := by
              simp [existingIds, huid, hfdr, hemid]
            have hids' : (existingIds (emails ++ [em]) uid fdr).Nodup := by
              rw [existingIds_append, hsingle]
              simp [List.nodup_append, hids, hpnotids]
            have hinv' : ∀ n' m' p', n' ∈ rest →
                mb.fetch n' = Except.ok (some m') →
                m'.message_id_h = some p' → p' ∉ ex →
                p' ∉ existingIds (emails ++ [em]) uid fdr := by
              intro n' m' p' hn' hf' hp' hex' hcon
              rw [existingIds_append, hsingle] at hcon
              rcases List.mem_append.mp hcon with hl | hr
              · exact hinv n' m' p' (by simp [hn']) hf' hp' hex' hl
              · have hpp : p' = p := by simpa using hr
                subst hpp
                exact hdist n n' m m' p'
                  (fun he => hn_rest (he ▸ hn')) hf hf' hp hp'
            obtain ⟨h1, h2⟩ := ih (emails ++ [em]) (cnt + 1) (uidx + 2)
              hrest_nd hinv' hids'
            refine ⟨h1, ?_⟩
            intro uf ff hne
            rw [h2 uf ff hne, existingIds_append]
            have hcond : (em.user_id == uf && em.folder == ff) = false := by
              rw [huid, hfdr]
              by_cases hu : uid = uf
              · by_cases hfo : fdr = ff
                · exact absurd ⟨hu.symm, hfo.symm⟩ hne
                · simp [hfo]
              · simp [hu]
            have hnil : existingIds [em] uf ff = [] := by
              simp [existingIds, hcond]
            rw [hnil, List.append_nil]

/-- Helper: the sync loop never touches the persisted-id view of any
other `(owner, folder)` pair. -/
theorem fetchLoop_frame (c : Codec) (u : Nat → String) (now : Nat)
    (mb : Mailbox) (uid fdr : String) (ex : List String) :
    ∀ (nums : List Nat) (emails : List EmailMessage) (cnt uidx : Nat)
      (uf ff : String), ¬ (uf = uid ∧ ff = fdr) →
    existingIds (fetchLoop c u now mb uid fdr ex nums emails cnt
      uidx).1 uf ff = existingIds emails uf ff := by
  intro nums
  induction nums with
  | nil => intro emails cnt uidx uf ff _; rfl
  | cons n rest ih =>
    intro emails cnt uidx uf ff hne
    cases hf : mb.fetch n with
    | error m => simp only [fetchLoop, hf]
    | ok md =>
      cases md with
      | none =>
        simp only [fetchLoop, hf, parse_email_message]
        exact ih emails cnt (uidx + 2) uf ff hne
      | some m =>
        cases hpe : parse_email_message c (u uidx) (u (uidx + 1)) now
            (some m) uid fdr with
        | none =>
          simp only [fetchLoop, hf, hpe]
          exact ih emails cnt (uidx + 2) uf ff hne
        | some em =>
          obtain ⟨hid, huid, hfdr⟩ :=
            parse_some_fields c _ _ now m uid fdr em hpe
          simp only [fetchLoop, hf, hpe]
          by_cases hmem : em.message_id ∈ ex
          · rw [if_pos hmem]
            exact ih emails cnt (uidx + 2) uf ff hne
          · rw [if_neg hmem]
            rw [ih (emails ++ [em]) (cnt + 1) (uidx + 2) uf ff hne,
              existingIds_append]
            have hcond : (em.user_id == uf && em.folder == ff) = false := by
              rw [huid, hfdr]
              by_cases hu : uid = uf
              · by_cases hfo : fdr = ff
                · exact absurd ⟨hu.symm, hfo.symm⟩ hne
                · simp [hfo]
              · simp [hu]
            have hnil : existingIds [em] uf ff = [] := by
              simp [existingIds, hcond]
            rw [hnil, List.append_nil]

/-- Helper: the handler wrapper does not change the stored collection. -/
theorem sync_emails_fst (c : Codec) (u : Nat → String) (now : Nat)
    (env : Env) (emails : List EmailMessage) (req : SyncRequest) :
    (sync_emails c u now env emails req).1 =
      (sync_core c u now env emails req).1 := by
  unfold sync_emails
  rcases h : sync_core c u now env emails req with ⟨a, b, rc⟩
  cases rc <;> rfl

/-- Helper: a session is only returned on the successful connect
outcome. -/
theorem connect_ok_inv (port : Int) (o : ConnectOutcome) (mb : Mailbox)
    (h : connect_imap port o = Except.ok mb) :
    o = ConnectOutcome.ok mb := by
  cases o with
  | ok mb2 =>
    simp only [connect_imap, Except.ok.injEq] at h
    rw [h]
  | timeout => simp [connect_imap] at h
  | failure m => simp [connect_imap] at h

/-- C1 amended: after a sync, the per-`(owner, folder)` uniqueness of
persisted protocol message identifiers is preserved PROVIDED the server
returns distinct message numbers and the fetched messages carry present,
pairwise-distinct `Message-ID`s.  The dedup check only guards against
identifiers persisted before the sync began: two batch members sharing a
`Message-ID` are both inserted (`C1_counterexample`), so uniqueness
within one batch is not enforced. -/
theorem C1_uniqueness_preserved (c : Codec) (u : Nat → String)
    (now : Nat) (env : Env) (emails : List EmailMessage)
    (req : SyncRequest)
    (hmb : ∀ mb, env.connect = ConnectOutcome.ok mb →
      (∀ l, mb.search = Except.ok l → l.Nodup) ∧
      (∀ n m, mb.fetch n = Except.ok (some m) →
        m.message_id_h.isSome) ∧
      (∀ n1 n2 m1 m2 p, n1 ≠ n2 → mb.fetch n1 = Except.ok (some m1) →
        mb.fetch n2 = Except.ok (some m2) → m1.message_id_h = some p →
        m2.message_id_h = some p → False)) :
    ∀ uf ff, (existingIds emails uf ff).Nodup →
      (existingIds (sync_emails c u now env emails req).1 uf
        ff).Nodup := by
  intro uf ff hnd
  rw [sync_emails_fst]
  unfold sync_core
  cases hu : findUser env req.user_id with
  | none => exact hnd
  | some user =>
    dsimp only
    cases hc : connect_imap user.imap_port env.connect with
    | error e => exact hnd
    | ok mb =>
      dsimp only
      obtain ⟨hsearch, hmid, hdist⟩ := hmb mb (connect_ok_inv _ _ _ hc)
      cases hsel : mb.select req.folder with
      | error m => exact hnd
      | ok unit1 =>
        dsimp only
        cases hsrch : mb.search with
        | error m => exact hnd
        | ok l =>
          dsimp only
          have hnodup_nums : ((takeLast req.limit l).reverse).Nodup := by
            rw [List.nodup_reverse]
            exact (takeLast_sublist req.limit l).nodup (hsearch l hsrch)
          by_cases hpair : uf = req.user_id ∧ ff = req.folder
          · obtain ⟨rfl, rfl⟩ := hpair
            have hkey := (fetchLoop_nodup c u now mb req.user_id
              req.folder (existingIds emails req.user_id req.folder)
              hmid hdist (takeLast req.limit l).reverse emails 0 0
              hnodup_nums (fun _ _ _ _ _ _ hpex => hpex) hnd).1
            rcases hl : fetchLoop c u now mb req.user_id req.folder
                (existingIds emails req.user_id req.folder)
                (takeLast req.limit l).reverse emails 0 0 with
              ⟨emails2, rl⟩
            rw [hl] at hkey
            cases rl <;> exact hkey
          · have hkey := fetchLoop_frame c u now mb req.user_id req.folder
              (existingIds emails req.user_id req.folder)
              (takeLast req.limit l).reverse emails 0 0 uf ff hpair
            rcases hl : fetchLoop c u now mb req.user_id req.folder
                (existingIds emails req.user_id req.folder)
                (takeLast req.limit l).reverse emails 0 0 with
              ⟨emails2, rl⟩
            rw [hl] at hkey
            cases rl <;> exact hkey ▸ hnd

/-- C3: sync is idempotent against an unchanged mailbox with stable
`Message-ID`s — after a successful first run, an immediate second run
(with fresh UUIDs and a different clock) persists no additional record
and returns a synced count of 0; in particular a message whose id is
already in the pre-loaded persisted set is never re-inserted, regardless
of its position in the batch. -/
theorem C3_sync_idempotent (c : Codec) (u1 u2 : Nat → String)
    (now1 now2 : Nat) (env : Env) (emails emails1 : List EmailMessage)
    (req : SyncRequest) (ev1 : List Event) (c1 : Nat)
    (h1 : sync_emails c u1 now1 env emails req =
      (emails1, ev1, Except.ok c1))
    (hmid : ∀ mb, env.connect = ConnectOutcome.ok mb →
      ∀ n m, mb.fetch n = Except.ok (some m) → m.message_id_h.isSome) :
    sync_emails c u2 now2 env emails1 req =
      (emails1, [Event.connected, Event.loggedOut], Except.ok 0) := by
  unfold sync_emails at h1 ⊢
  rcases hc1 : sync_core c u1 now1 env emails req with ⟨a, b, rc⟩
  rw [hc1] at h1
  cases rc with
  | error e =>
    dsimp only at h1
    exact absurd h1 (by simp)
  | ok cnt =>
    dsimp only at h1
    injection h1 with ha h1
    subst ha
    unfold sync_core at hc1 ⊢
    cases hu : findUser env req.user_id with
    | none =>
      simp only [hu] at hc1
      exact absurd hc1 (by simp)
    | some user =>
      simp only [hu] at hc1 ⊢
      cases hc : connect_imap user.imap_port env.connect with
      | error e =>
        simp only [hc] at hc1
        exact absurd hc1 (by simp)
      | ok mb =>
        simp only [hc] at hc1 ⊢
        have hmid2 := hmid mb (connect_ok_inv _ _ _ hc)
        cases hsel : mb.select req.folder with
        | error m =>
          simp only [hsel] at hc1
          exact absurd hc1 (by simp)
        | ok u0 =>
          simp only [hsel] at hc1 ⊢
          cases hsrch : mb.search with
          | error m =>
            simp only [hsrch] at hc1
            exact absurd hc1 (by simp)
          | ok l =>
            simp only [hsrch] at hc1 ⊢
            rcases hl1 : fetchLoop c u1 now1 mb req.user_id req.folder
                (existingIds emails req.user_id req.folder)
                (takeLast req.limit l).reverse emails 0 0 with ⟨e2, rl1⟩
            rw [hl1] at hc1
            cases rl1 with
            | error m =>
              dsimp only at hc1
              exact absurd hc1 (by simp)
            | ok cnt0 =>
              dsimp only at hc1
              injection hc1 with he2 hc1
              subst he2
              obtain ⟨⟨t, ht⟩, hpost⟩ := fetchLoop_post c u1 now1 mb
                req.user_id req.folder
                (existingIds emails req.user_id req.folder)
                (takeLast req.limit l).reverse emails 0 0 e2 cnt0 hl1
              have hargs : ∀ n ∈ (takeLast req.limit l).reverse,
                  ∃ r, mb.fetch n = Except.ok r ∧
                  ∀ m, r = some m → subjectOk c m = true →
                    ∃ p, m.message_id_h = some p ∧
                    p ∈ existingIds e2 req.user_id req.folder := by
                intro n hn
                obtain ⟨r, hr, hprop⟩ := hpost n hn
                refine ⟨r, hr, ?_⟩
                intro m hm hso
                subst hm
                obtain ⟨p, hp⟩ :=
                  Option.isSome_iff_exists.mp (hmid2 n m hr)
                refine ⟨p, hp, ?_⟩
                rcases hprop m p rfl hso hp with hin | hex
                · exact hin
                · rw [ht, existingIds_append]
                  exact List.mem_append_left _ hex
              have hnoop := fetchLoop_noop c u2 now2 mb req.user_id
                req.folder (existingIds e2 req.user_id req.folder)
                (takeLast req.limit l).reverse e2 0 0 hargs
              rw [hnoop]

/-- C1 witness: uniqueness preservation evaluated on an empty store and a
two-message mailbox with distinct stable `Message-ID`s. -/
theorem C1_uniqueness_witness :
    (existingIds (sync_emails plainCodec uuidStream 0
      (envWith mbTwoDistinct) [] reqC).1 "u1" "INBOX").Nodup := by
  apply C1_uniqueness_preserved plainCodec uuidStream 0
    (envWith mbTwoDistinct) [] reqC
  · intro mb hmb
    have hmb2 : ConnectOutcome.ok mbTwoDistinct =
        ConnectOutcome.ok mb := hmb
    injection hmb2 with hmb2
    subst hmb2
    refine ⟨?_, ?_, ?_⟩
    · intro l hl
      have h2 : Except.ok [1, 2] =
          (Except.ok l : Except String (List Nat)) := hl
      injection h2 with h2
      rw [← h2]
      decide
    · intro n m hf
      by_cases h1 : n = 1 <;> by_cases h2 : n = 2 <;>
        simp_all [mbTwoDistinct, mbIdle, msgWithMid] <;>
        (try (subst hf; rfl))
    · intro n1 n2 m1 m2 p hne hf1 hf2 hp1 hp2
      by_cases ha1 : n1 = 1 <;> by_cases ha2 : n1 = 2 <;>
        by_cases hb1 : n2 = 1 <;> by_cases hb2 : n2 = 2 <;>
        simp_all [mbTwoDistinct, mbIdle, msgWithMid] <;>
        (try (subst hf1; subst hf2; simp_all)) <;>
        (try (exact absurd (hp1.trans hp2.symm) (by decide)))
  · decide

/-- C3 witness: idempotence evaluated concretely — the first run against
the two-message mailbox persists 2 records, and the second run (fresh
UUID stream, different clock) persists nothing and returns 0. -/
theorem C3_sync_idempotent_witness :
    sync_emails plainCodec (fun n => "w-" ++ toString n) 7
      (envWith mbTwoDistinct)
      (sync_emails plainCodec uuidStream 0 (envWith mbTwoDistinct) []
        reqC).1 reqC =
      ((sync_emails plainCodec uuidStream 0 (envWith mbTwoDistinct) []
        reqC).1, [Event.connected, Event.loggedOut], Except.ok 0) := by
  apply C3_sync_idempotent plainCodec uuidStream
    (fun n => "w-" ++ toString n) 0 7 (envWith mbTwoDistinct) []
    (sync_emails plainCodec uuidStream 0 (envWith mbTwoDistinct) []
      reqC).1 reqC [Event.connected, Event.loggedOut] 2 rfl
  intro mb hmb n m hf
  have hmb2 : ConnectOutcome.ok mbTwoDistinct =
      ConnectOutcome.ok mb := hmb
  injection hmb2 with hmb2
  subst hmb2
  by_cases h1 : n = 1 <;> by_cases h2 : n = 2 <;>
    simp_all [mbTwoDistinct, mbIdle, msgWithMid] <;>
    (try (subst hf; rfl))

/-- Helper: the code-point order on char lists is reflexive. -/
theorem listLe_refl : ∀ a : List Char, listLe a a = true := by
  intro a
  induction a with
  | nil => rfl
  | cons x xs ih => simp [listLe, ih]

/-- Helper: the code-point order on char lists is total. -/
theorem listLe_total : ∀ a b : List Char,
    (listLe a b || listLe b a) = true := by
  intro a
  induction a with
  | nil => intro b; simp [listLe]
  | cons x xs ih =>
    intro b
    cases b with
    | nil => simp [listLe]
    | cons y ys =>
      simp only [listLe]
      by_cases h1 : x.toNat < y.toNat
      · simp [h1]
      · by_cases h2 : y.toNat < x.toNat
        · simp [h1, h2]
        · simp [h1, h2, ih ys]

/-- Helper: the code-point order on char lists is transitive. -/
theorem listLe_trans : ∀ a b d : List Char, listLe a b = true →
    listLe b d = true → listLe a d = true := by
  intro a
  induction a with
  | nil => intro b d _ _; simp [listLe]
  | cons x xs ih =>
    intro b d h1 h2
    cases b with
    | nil => simp [listLe] at h1
    | cons y ys =>
      cases d with
      | nil => simp [listLe] at h2
      | cons z zs =>
        simp only [listLe] at h1 h2 ⊢
        by_cases hxy : x.toNat < y.toNat
        · by_cases hyz : y.toNat < z.toNat
          · simp [Nat.lt_trans hxy hyz]
          · by_cases hzy : z.toNat < y.toNat
            · rw [if_neg hyz, if_pos hzy] at h2
              exact absurd h2 (by simp)
            · have hxz : x.toNat < z.toNat := by omega
              simp [hxz]
        · by_cases hyx : y.toNat < x.toNat
          · rw [if_neg hxy, if_pos hyx] at h1
            exact absurd h1 (by simp)
          · rw [if_neg hxy, if_neg hyx] at h1
            by_cases hyz : y.toNat < z.toNat
            · have hxz : x.toNat < z.toNat := by omega
              simp [hxz]
            · by_cases hzy : z.toNat < y.toNat
              · rw [if_neg hyz, if_pos hzy] at h2
                exact absurd h2 (by simp)
              · rw [if_neg hyz, if_neg hzy] at h2
                have hxz : ¬ x.toNat < z.toNat := by omega
                have hzx : ¬ z.toNat < x.toNat := by omega
                rw [if_neg hxz, if_neg hzx]
                exact ih ys zs h1 h2

/-- Helper: the folder sort key order is total. -/
theorem folderRel_total : ∀ a b : FolderInfo,
    folderRel a b ∨ folderRel b a := by
  intro a b
  unfold folderRel folderLe
  dsimp only
  by_cases ha : a.name = "INBOX" <;> by_cases hb : b.name = "INBOX" <;>
    simp [ha, hb]
  · exact listLe_refl _
  · have h := listLe_total a.name.data b.name.data
    rcases (by simpa using h :
      listLe a.name.data b.name.data = true ∨
      listLe b.name.data a.name.data = true) with h2 | h2
    · exact Or.inl h2
    · exact Or.inr h2

/-- Helper: the folder sort key order is transitive. -/
theorem folderRel_trans : ∀ a b d : FolderInfo,
    folderRel a b → folderRel b d → folderRel a d := by
  intro a b d h1 h2
  unfold folderRel folderLe at h1 h2 ⊢
  dsimp only at h1 h2 ⊢
  by_cases ha : a.name = "INBOX" <;> by_cases hb : b.name = "INBOX" <;>
    by_cases hd : d.name = "INBOX" <;> simp_all
  exact listLe_trans _ _ _ h1 h2

/-- Helper: the folder enumeration loop yields one entry per display
name, each taken from the first successful listing entry with that
display name. -/
theorem foldersLoop_spec (selC : String → Option Nat) :
    ∀ (fl : List String) (acc : List FolderInfo) (found : List String),
    (∀ x, x ∈ found ↔ x ∈ acc.map FolderInfo.name) →
    (acc.map FolderInfo.name).Nodup →
    ((foldersLoop selC fl acc found).map FolderInfo.name).Nodup ∧
    (∀ fi ∈ foldersLoop selC fl acc found, fi ∈ acc ∨
      (fi.name ∉ found ∧
        (effectiveEntries selC fl).find? (fun p => p.1 == fi.name) =
          some (fi.name, fi.message_count))) := by
  intro fl
  induction fl with
  | nil =>
    intro acc found _ hnd
    exact ⟨hnd, fun fi hfi => Or.inl hfi⟩
  | cons raw rest ih =>
    intro acc found hinv hnd
    cases hpn : parseFolderName raw with
    | none =>
      simp only [foldersLoop, hpn]
      have heff : effectiveEntries selC (raw :: rest) =
          effectiveEntries selC rest := by
        simp [effectiveEntries, hpn]
      rw [heff]
      exact ih acc found hinv hnd
    | some fn =>
      cases hsc : selC fn with
      | none =>
        simp only [foldersLoop, hpn, hsc]
        have heff : effectiveEntries selC (raw :: rest) =
            effectiveEntries selC rest := by
          simp [effectiveEntries, hpn, hsc]
        rw [heff]
        exact ih acc found hinv hnd
      | some count =>
        have heff : effectiveEntries selC (raw :: rest) =
            (displayNameOf fn, count) :: effectiveEntries selC rest := by
          simp [effectiveEntries, hpn, hsc]
        simp only [foldersLoop, hpn, hsc]
        by_cases hd : displayNameOf fn ∈ found
        · rw [if_pos hd, heff]
          obtain ⟨h1, h2⟩ := ih acc found hinv hnd
          refine ⟨h1, ?_⟩
          intro fi hfi
          rcases h2 fi hfi with hacc | ⟨hnf, hfind⟩
          · exact Or.inl hacc
          · refine Or.inr ⟨hnf, ?_⟩
            rw [List.find?_cons_of_neg, hfind]
            simp only [beq_iff_eq]
            intro hcon
            exact hnf (hcon ▸ hd)
        · rw [if_neg hd, heff]
          have hinv2 : ∀ x, x ∈ (displayNameOf fn :: found) ↔
              x ∈ (acc ++ [FolderInfo.mk (displayNameOf fn) count]).map
                FolderInfo.name := by
            intro x
            simp only [List.mem_cons, List.map_append, List.mem_append,
              List.map_cons, List.map_nil]
            constructor
            · rintro (rfl | hx)
              · right; simp
              · left; exact (hinv x).mp hx
            · rintro (hx | hx)
              · right; exact (hinv x).mpr hx
              · left; simpa using hx.symm
          have hnd2 : ((acc ++ [FolderInfo.mk (displayNameOf fn)
              count]).map FolderInfo.name).Nodup := by
            rw [List.map_append]
            simp only [List.map_cons, List.map_nil]
            rw [List.nodup_append]
            refine ⟨hnd, by simp, ?_⟩
            intro x hx hx2
            have hcon : x = displayNameOf fn := by simpa using hx2
            exact hd (hcon ▸ (hinv x).mpr hx)
          obtain ⟨h1, h2⟩ := ih
            (acc ++ [FolderInfo.mk (displayNameOf fn) count])
            (displayNameOf fn :: found) hinv2 hnd2
          refine ⟨h1, ?_⟩
          intro fi hfi
          rcases h2 fi hfi with hacc | ⟨hnf, hfind⟩
          · rcases List.mem_append.mp hacc with hl | hr
            · exact Or.inl hl
            · have hfi2 : fi = FolderInfo.mk (displayNameOf fn) count := by
                simpa using hr
              subst hfi2
              refine Or.inr ⟨hd, ?_⟩
              rw [List.find?_cons_of_pos]
              simp
          · have hnf2 : fi.name ≠ displayNameOf fn := by
              intro hcon
              exact hnf (by simp [hcon])
            have hnf3 : fi.name ∉ found := fun hcon => hnf (by simp [hcon])
            refine Or.inr ⟨hnf3, ?_⟩
            rw [List.find?_cons_of_neg, hfind]
            simp only [beq_iff_eq]
            intro hcon
            exact hnf2 hcon.symm

/-- C9: every successful folder-listing result has pairwise-distinct
display names (at most one entry per canonical name), is sorted with
INBOX first and the remaining folders in code-point alphabetical order
of display name, and each entry carries the name and count of the FIRST
listing entry (in server order) that parses, selects, and maps to that
display name. -/
theorem C9_folder_listing (env : Env) (uid : String) (ev : List Event)
    (res : List FolderInfo)
    (h : get_folders env uid = (ev, Except.ok res)) :
    (res.map FolderInfo.name).Nodup ∧
    List.Pairwise folderRel res ∧
    (∀ mb fl, env.connect = ConnectOutcome.ok mb →
      mb.listFolders = Except.ok fl →
      ∀ fi ∈ res, (effectiveEntries mb.selectCount fl).find?
        (fun p => p.1 == fi.name) = some (fi.name, fi.message_count)) := by
  unfold get_folders get_folders_core at h
  cases hu : findUser env uid with
  | none =>
    simp only [hu] at h
    exact absurd h (by simp)
  | some user =>
    simp only [hu] at h
    cases hc : connect_imap user.imap_port env.connect with
    | error e =>
      simp only [hc] at h
      exact absurd h (by simp)
    | ok mb0 =>
      simp only [hc] at h
      cases hlf : mb0.listFolders with
      | error m =>
        simp only [hlf] at h
        exact absurd h (by simp)
      | ok fl0 =>
        simp only [hlf] at h
        injection h with hev h
        injection h with hres
        subst hres
        obtain ⟨hnodup, hprop⟩ := foldersLoop_spec mb0.selectCount fl0 []
          [] (by simp) (by simp)
        have hperm := List.perm_insertionSort folderRel
          (foldersLoop mb0.selectCount fl0 [] [])
        refine ⟨?_, ?_, ?_⟩
        · exact ((hperm.map FolderInfo.name).nodup_iff).mpr hnodup
        · haveI : IsTotal FolderInfo folderRel := ⟨folderRel_total⟩
          haveI : IsTrans FolderInfo folderRel :=
            ⟨fun a b d => folderRel_trans a b d⟩
          exact List.sorted_insertionSort folderRel _
        · intro mb fl hcmb hfl fi hfi
          have h1 : env.connect = ConnectOutcome.ok mb0 :=
            connect_ok_inv _ _ _ hc
          rw [h1] at hcmb
          injection hcmb with hmbeq
          subst hmbeq
          rw [hlf] at hfl
          injection hfl with hfleq
          subst hfleq
          have hfi0 : fi ∈ foldersLoop mb0.selectCount fl0 [] [] :=
            hperm.mem_iff.mp hfi
          rcases hprop fi hfi0 with habs | ⟨_, hfind⟩
          · exact absurd habs (by simp)
          · exact hfind

/-- C9 witness: the listing properties evaluated on a concrete server
response with a duplicate canonical name, an unselectable folder, and a
fallback-parsed entry; the result is INBOX first, then Alpha and Zeta
alphabetically. -/
theorem C9_folder_listing_witness :
    ((([⟨"INBOX", 5⟩, ⟨"Alpha", 5⟩, ⟨"Zeta", 4⟩] :
      List FolderInfo)).map FolderInfo.name).Nodup ∧
    List.Pairwise folderRel
      ([⟨"INBOX", 5⟩, ⟨"Alpha", 5⟩, ⟨"Zeta", 4⟩] : List FolderInfo) ∧
    (∀ mb fl, (envWith mbFolders).connect = ConnectOutcome.ok mb →
      mb.listFolders = Except.ok fl →
      ∀ fi ∈ ([⟨"INBOX", 5⟩, ⟨"Alpha", 5⟩, ⟨"Zeta", 4⟩] :
        List FolderInfo),
        (effectiveEntries mb.selectCount fl).find?
          (fun p => p.1 == fi.name) = some (fi.name, fi.message_count)) :=
  C9_folder_listing (envWith mbFolders) "u1"
    [Event.connected, Event.loggedOut]
    [⟨"INBOX", 5⟩, ⟨"Alpha", 5⟩, ⟨"Zeta", 4⟩] rfl
